import Mathlib

/-!
Verification of the movie ETL pipeline (extract / transform / api client /
load).  Each Python function of the repository is embedded as an executable
Lean definition, and the behavioural claims about the pipeline are settled
as theorems over those definitions.

Conventions of the embedding:
* pandas cell values are modelled by the inductive type `PyVal`
  (NaN / int / float / str, plus a datetime instant produced by
  `pd.to_datetime`); Python floats that the source only ever truncates or
  compares are modelled by rationals (all float values reached by the
  source code, such as 0.5 * 2 ** k capped at 5, are exactly representable
  in binary floating point, so the rational model is exact);
* Python dicts keyed by strings are modelled by association lists with
  last-write-wins insertion;
* fallible code (KeyError, MergeError) is modelled with `Except String`;
* the sqlite connection is modelled by the committed table contents; the
  `transaction` context manager of database.py commits the working state
  on success and restores the pre-transaction state on failure.
-/

namespace ETL

/-! ### Loader: chunking (load.py, `_chunked`) -/
/-- Embedding of load.py `_chunked`: repeatedly take `size` elements
(`list(islice(iterator, size))`); an empty chunk ends the stream. -/
def chunked (l : List α) (size : Nat) : List (List α) :=
  if h : (l.take size).isEmpty then []
  else l.take size :: chunked (l.drop size) size
termination_by l.length
decreasing_by
  rw [List.isEmpty_iff, List.take_eq_nil_iff] at h
  push_neg at h
  have hl : 0 < l.length := List.length_pos.mpr h.2
  simp only [List.length_drop]
  omega

/-! ### Loader: batched execution inside one transaction
(load.py `_execute_chunks`, database.py `transaction`) -/
/-- Embedding of `cursor.executemany` for one chunk: rows are applied to the
working (uncommitted) state one by one; the first row on which the store
raises (modelled by the failure predicate `failP`) aborts the statement,
leaving the rows already executed as uncommitted changes. -/
def executemany (failP : α → Bool) (st : List α) : List α → Except (List α) (List α)
  | [] => Except.ok st
  | r :: rs => if failP r then Except.error st else executemany failP (st ++ [r]) rs

/-- Embedding of load.py `_execute_chunks`: the chunks of `rows` are executed
sequentially on the same cursor; an exception propagates immediately. -/
def execute_chunks (failP : α → Bool) (st : List α) (rows : List α) (size : Nat) :
    Except (List α) (List α) :=
  (chunked rows size).foldlM (fun s c => executemany failP s c) st

/-- Embedding of the `with transaction(connection)` wrapper of database.py
around `_execute_chunks` (the shape of every insert_* function of load.py):
on success the whole working state is committed; on any exception the
connection rolls back to the state it had before the loader call, and the
exception propagates. -/
def insert_batched (failP : α → Bool) (committed : List α) (rows : List α) (size : Nat) :
    Except (List α) (List α) :=
  match execute_chunks failP committed rows size with
  | Except.ok st => Except.ok st
  | Except.error _ => Except.error committed

/-- Database contents visible after a loader call, whether it committed or
rolled back. -/
def db_after : Except (List α) (List α) → List α
  | Except.ok st => st
  | Except.error st => st

/-! ### Python scalar values

Cells of a pandas DataFrame are modelled by `PyVal`.  `naV` stands for NaN
(and NaT), `instV` for the Timestamp produced by `pd.to_datetime`.  Floats
are carried as rationals: every float the source code manipulates
(ratings read from text, 0.5 * 2 ** k capped at 5) is exactly
representable, so the rational model is exact. -/
inductive PyVal where
  | naV : PyVal
  | intV : Int → PyVal
  | floatV : ℚ → PyVal
  | strV : String → PyVal
  | instV : ℚ → PyVal
deriving Repr, DecidableEq

/-- Python equality (==) between cell values, as used by pandas
drop_duplicates and merge-key matching: numbers compare by value across
int/float, strings only to strings; NaN cells are treated as equal to each
other (pandas duplicated treats NaN keys as duplicates). -/
def pyEq : PyVal → PyVal → Bool
  | PyVal.naV, PyVal.naV => true
  | PyVal.intV a, PyVal.intV b => a = b
  | PyVal.floatV a, PyVal.floatV b => a = b
  | PyVal.intV a, PyVal.floatV b => (a : ℚ) = b
  | PyVal.floatV a, PyVal.intV b => a = (b : ℚ)
  | PyVal.strV a, PyVal.strV b => a = b
  | PyVal.instV a, PyVal.instV b => a = b
  | _, _ => false

/-! ### Python string primitives used by extract.py and transform.py -/
/-- Characters matched by the regex class \s (ASCII range; the titles and
ids of the dataset are ASCII). -/
def isSpacePy (c : Char) : Bool :=
  c = ' ' || c = '\t' || c = '\n' || c = '\x0b' || c = '\x0c' || c = '\r'

/-- Characters matched by the regex class \d (ASCII range). -/
def isDigitPy (c : Char) : Bool := c.isDigit

def digitVal (c : Char) : Nat := c.toNat - 48

/-- Decimal digits of a natural number, most significant first
(the digits of Python str(n) for a non-negative int). -/
def natDigits (n : Nat) : List Char :=
  if h : n < 10 then [Char.ofNat (48 + n)]
  else natDigits (n / 10) ++ [Char.ofNat (48 + n % 10)]
termination_by n
decreasing_by
  have : 10 ≤ n := Nat.le_of_not_lt h
  exact Nat.div_lt_self (by omega) (by norm_num)

/-- Embedding of Python str() on an int. -/
def pyStrOfInt (i : Int) : String :=
  if i < 0 then String.mk ('-' :: natDigits i.natAbs) else String.mk (natDigits i.natAbs)

/-- Embedding of Python int() on a float: truncation toward zero. -/
def pyTrunc (q : ℚ) : Int := if q < 0 then -(⌊-q⌋) else ⌊q⌋

/-- Character-list core of Python str.zfill: pad on the left with zeros up
to the requested width, keeping a leading sign in front of the padding. -/
def zfillChars : List Char → Nat → List Char
  | [], w => if w ≤ 0 then [] else List.replicate w '0'
  | c :: rest, w =>
      if w ≤ rest.length + 1 then c :: rest
      else if c = '-' || c = '+' then c :: (List.replicate (w - (rest.length + 1)) '0' ++ rest)
      else List.replicate (w - (rest.length + 1)) '0' ++ (c :: rest)

/-- Embedding of Python str.zfill. -/
def pyZfill (s : String) (w : Nat) : String := String.mk (zfillChars s.data w)

def ltrim (cs : List Char) : List Char := cs.dropWhile isSpacePy

def rtrim (cs : List Char) : List Char := (cs.reverse.dropWhile isSpacePy).reverse

/-- Embedding of Python str.strip(). -/
def pyStrip (s : String) : String := String.mk (ltrim (rtrim s.data))

/-! ### extract.py: `_extract_year` and `_format_imdb_id`;
transform.py: `_clean_title` -/
/-- Matcher for the anchored regex suffix `\(\d{4}\)\s*$` applied to the
REVERSED character list of a title: skip trailing whitespace, then demand
a closing paren, exactly four digits, and an opening paren.  On success it
returns the characters before the match (still reversed) and the year. -/
def matchYearSuffixRev (rcs : List Char) : Option (List Char × Nat) :=
  match rcs.dropWhile isSpacePy with
  | c0 :: c1 :: c2 :: c3 :: c4 :: c5 :: rest =>
      if c0 = ')' && isDigitPy c1 && isDigitPy c2 && isDigitPy c3 && isDigitPy c4 &&
          c5 = '(' then
        some (rest, digitVal c4 * 1000 + digitVal c3 * 100 + digitVal c2 * 10 + digitVal c1)
      else none
  | _ => none

/-- Embedding of extract.py `_extract_year`: search the stripped title for
a trailing parenthesized four-digit year and return it as an integer
(int() on four digits cannot fail, so the except branch is dead). -/
def extract_year (title : String) : Option Nat :=
  match matchYearSuffixRev (pyStrip title).data.reverse with
  | some (_, y) => some y
  | none => none

/-- Embedding of the substitution `re.sub(r'\s*\(\d{4}\)\s*$', '', s)` in
transform.py `_clean_title`: if the title ends (modulo trailing
whitespace) with a parenthesized four-digit year, remove it together with
the whitespace run immediately before the opening paren. -/
def subYearSuffix (s : String) : String :=
  match matchYearSuffixRev s.data.reverse with
  | some (rest, _) => String.mk (rest.dropWhile isSpacePy).reverse
  | none => s

/-- Embedding of `re.sub(r'\s{2,}', ' ', s)`: every maximal run of two or
more whitespace characters becomes a single space; an isolated whitespace
character (for example a lone tab) is kept as it is. -/
def collapseWs : List Char → List Char
  | [] => []
  | [c] => [c]
  | c :: c2 :: rest =>
      if isSpacePy c && isSpacePy c2 then
        ' ' :: collapseWs ((c2 :: rest).dropWhile isSpacePy)
      else c :: collapseWs (c2 :: rest)
termination_by l => l.length
decreasing_by
  · have h := (List.dropWhile_sublist (l := c2 :: rest) isSpacePy).length_le
    simp only [List.length_cons] at h ⊢
    omega
  · simp only [List.length_cons]
    omega

/-- Embedding of transform.py `_clean_title` on a string input: strip the
trailing year suffix, strip outer whitespace, then collapse inner
whitespace runs. -/
def clean_title (title : String) : String :=
  String.mk (collapseWs (pyStrip (subYearSuffix title)).data)

/-- Whitespace normalization as performed by `_clean_title` when no year
suffix is present: outer strip plus collapse of inner whitespace runs. -/
def wsNormalize (s : String) : String := String.mk (collapseWs (pyStrip s).data)

/-- Embedding of extract.py `_format_imdb_id`: NaN yields None; a float is
truncated to int first; the string form, when non-empty, is zero-filled to
width 7 and prefixed with tt.  (A Timestamp value never reaches this
function in the pipeline and is mapped like an empty string.) -/
def format_imdb_id (v : PyVal) : Option String :=
  match v with
  | PyVal.naV => none
  | _ =>
      let s : String :=
        match v with
        | PyVal.floatV q => pyStrOfInt (pyTrunc q)
        | PyVal.intV n => pyStrOfInt n
        | PyVal.strV t => t
        | _ => ""
      if s = "" then none
      else some ("tt" ++ pyZfill s 7)

/-! ### transform.py `_validate_ratings_dataframe` -/
/-- Digit-string parser used to model pd.to_numeric on integer literals. -/
def parseNatChars (cs : List Char) : Option Nat :=
  if cs ≠ [] ∧ cs.all isDigitPy then
    some (cs.foldl (fun a c => a * 10 + digitVal c) 0)
  else none

/-- Splits a character list at its first dot. -/
def splitDot : List Char → (List Char × Option (List Char))
  | [] => ([], none)
  | c :: rest =>
      if c = '.' then ([], some rest)
      else
        let p := splitDot rest
        (c :: p.1, p.2)

/-- The rational one half, written as an explicit reduced fraction so that
it evaluates by kernel reduction (the source constant 0.5 is exactly this
value). -/
def ratHalf : ℚ := ⟨1, 2, by decide, by decide⟩

/-- Model of pd.to_numeric string parsing restricted to optionally signed
decimal literals (the lexical shape of the dataset columns); anything else
coerces to NaN. -/
def parseDec (s : String) : Option ℚ :=
  let sgn : Bool × List Char :=
    match s.data with
    | '-' :: rest => (true, rest)
    | '+' :: rest => (false, rest)
    | _ => (false, s.data)
  match splitDot sgn.2 with
  | (intPart, none) =>
      (parseNatChars intPart).map (fun n => if sgn.1 then -(n : ℚ) else (n : ℚ))
  | (intPart, some fracPart) =>
      if fracPart.any (fun c => c = '.') then none
      else
        match parseNatChars intPart, parseNatChars fracPart with
        | some n, some f =>
            some (mkRat ((if sgn.1 then -1 else 1) * (n * 10 ^ fracPart.length + f))
              (10 ^ fracPart.length))
        | _, _ => none

/-- Embedding of pd.to_numeric(column, errors=coerce) on one cell: numeric
cells pass through, parseable strings become floats, everything else
becomes NaN.  (A Timestamp cell never reaches this call in the ratings
pipeline.) -/
def to_numeric : PyVal → PyVal
  | PyVal.naV => PyVal.naV
  | PyVal.intV n => PyVal.intV n
  | PyVal.floatV q => PyVal.floatV q
  | PyVal.strV s =>
      match parseDec s with
      | some q => PyVal.floatV q
      | none => PyVal.naV
  | PyVal.instV _ => PyVal.naV

def numVal : PyVal → Option ℚ
  | PyVal.intV n => some (n : ℚ)
  | PyVal.floatV q => some q
  | _ => none

/-- Pandas comparison column >= bound: NaN (and non-numeric) compares
false. -/
def cmp_ge (v : PyVal) (b : ℚ) : Bool :=
  match numVal v with
  | some a => b ≤ a
  | none => false

/-- Pandas comparison column <= bound: NaN (and non-numeric) compares
false. -/
def cmp_le (v : PyVal) (b : ℚ) : Bool :=
  match numVal v with
  | some a => a ≤ b
  | none => false

def notNa : PyVal → Bool
  | PyVal.naV => false
  | _ => true

/-- Whether a number of seconds fits the datetime64[ns] range, i.e.
|q| * 10^9 ≤ 2^63 - 1, stated on numerator and denominator so that it
evaluates by kernel reduction. -/
def inDt64Range (q : ℚ) : Bool :=
  q.num.natAbs * 1000000000 ≤ 9223372036854775807 * q.den

/-- Embedding of pd.to_datetime(column, unit=s, origin=unix,
errors=coerce) on one cell: a numeric value inside the datetime64[ns]
range becomes an instant, anything else becomes NaT. -/
def to_datetime_s : PyVal → PyVal
  | PyVal.intV n => if inDt64Range (n : ℚ) then PyVal.instV (n : ℚ) else PyVal.naV
  | PyVal.floatV q => if inDt64Range q then PyVal.instV q else PyVal.naV
  | _ => PyVal.naV

/-- One row of the raw ratings table. -/
structure RatingRow where
  userId : PyVal
  movieId : PyVal
  rating : PyVal
  timestamp : PyVal
deriving Repr, DecidableEq

/-- Sameness of the (userId, movieId, timestamp) key under Python
equality, as used by drop_duplicates. -/
def ratingKeyEq (a b : RatingRow) : Bool :=
  pyEq a.userId b.userId && pyEq a.movieId b.movieId && pyEq a.timestamp b.timestamp

/-- Embedding of drop_duplicates(subset=[userId, movieId, timestamp]) with
keep=first: a row is kept when no earlier row had the same key. -/
def dedup_go (seen : List RatingRow) : List RatingRow → List RatingRow
  | [] => []
  | r :: rs =>
      if seen.any (fun x => ratingKeyEq x r) then dedup_go seen rs
      else r :: dedup_go (seen ++ [r]) rs

def dedup_first (l : List RatingRow) : List RatingRow := dedup_go [] l

/-- Embedding of transform.py `_validate_ratings_dataframe`, step for
step: dedup on the raw key, coerce the score, range-filter the score,
coerce the timestamp, drop rows with NaN score or timestamp, convert the
timestamp to an instant, drop rows where conversion failed. -/
def validate_ratings_dataframe (ratings : List RatingRow) : List RatingRow :=
  let r1 := dedup_first ratings
  let r2 := r1.map (fun r => { r with rating := to_numeric r.rating })
  let r3 := r2.filter (fun r => cmp_ge r.rating ratHalf && cmp_le r.rating 5)
  let r4 := r3.map (fun r => { r with timestamp := to_numeric r.timestamp })
  let r5 := r4.filter (fun r => notNa r.rating && notNa r.timestamp)
  let r6 := r5.map (fun r => { r with timestamp := to_datetime_s r.timestamp })
  r6.filter (fun r => notNa r.timestamp)

/-- Combined per-row transformation applied by the validation pipeline
after dedup (score coercion, then timestamp coercion, then timestamp
conversion). -/
def rowF (r : RatingRow) : RatingRow :=
  { r with rating := to_numeric r.rating,
           timestamp := to_datetime_s (to_numeric r.timestamp) }

/-- Combined keep-predicate of the validation pipeline after dedup. -/
def rowG (r : RatingRow) : Bool :=
  (cmp_ge (to_numeric r.rating) ratHalf && cmp_le (to_numeric r.rating) 5) &&
  (notNa (to_numeric r.rating) && notNa (to_numeric r.timestamp)) &&
  notNa (to_datetime_s (to_numeric r.timestamp))

/-! ### api_client.py: OMDbClient

The HTTP payload of one response is modelled as a string-keyed dict
(association list); the transport is an injected oracle mapping the
attempt number to either a transport failure (requests.RequestException,
raise_for_status, or malformed JSON) or a decoded payload.  Time.sleep
calls are recorded rather than performed. -/
/-- A decoded JSON object, as far as the client inspects it. -/
abbrev Payload := List (String × String)

/-- Python dict.get on a payload. -/
def dget (d : Payload) (k : String) : Option String :=
  (d.find? (fun kv => kv.1 = k)).map Prod.snd

/-- The persistent cache: imdb id to stored payload. -/
abbrev Cache := List (String × Payload)

/-- Python dict lookup (d[k] guarded by k in d). -/
def cache_get (c : List (String × β)) (k : String) : Option β :=
  (c.find? (fun kv => kv.1 = k)).map Prod.snd

/-- Python dict assignment d[k] = v: overwrite in place, else append. -/
def dict_put (c : List (String × β)) (k : String) (v : β) : List (String × β) :=
  if c.any (fun kv => kv.1 = k) then c.map (fun kv => if kv.1 = k then (k, v) else kv)
  else c ++ [(k, v)]

/-- The negative cache entry written for a structured not-found response:
a fresh dict with Response False and the reported reason. -/
def neg_marker (reason : String) : Payload := [("Response", "False"), ("Error", reason)]

/-- Backoff delay before retrying after transport failure number
`attempt`: min(5, 0.5 * 2 ** (attempt - 1)) seconds. -/
def backoff_delay (attempt : Nat) : ℚ := min 5 (ratHalf * 2 ^ (attempt - 1))

/-- Observable outcome of one fetch_movie call: the returned value, the
cache afterwards, the number of network requests issued, the backoff
delays slept (in order), and the number of post-success rate-limit
sleeps. -/
structure FetchResult where
  payload : Option Payload
  cache : Cache
  net : Nat
  backoffs : List ℚ
  rate_sleeps : Nat
deriving Repr, DecidableEq

/-- The retry loop of fetch_movie (for attempt in range(1, max_retries+1)):
`attempt` is the 1-based attempt number, `rem` the number of attempts
still allowed.  A transport error sleeps the backoff and retries; a
Response False payload caches a negative marker and returns None; any
other payload is cached and returned after the rate-limit sleep.
Exhausting the attempts returns None without caching. -/
def fetch_loop (oracle : Nat → Except Unit Payload) (imdbId : String) (cache : Cache) :
    Nat → Nat → FetchResult
  | _, 0 => ⟨none, cache, 0, [], 0⟩
  | attempt, rem + 1 =>
      match oracle attempt with
      | Except.error _ =>
          let rest := fetch_loop oracle imdbId cache (attempt + 1) rem
          ⟨rest.payload, rest.cache, rest.net + 1, backoff_delay attempt :: rest.backoffs,
           rest.rate_sleeps⟩
      | Except.ok payload =>
          if dget payload "Response" = some "False" then
            ⟨none, dict_put cache imdbId (neg_marker ((dget payload "Error").getD "unknown error")),
             1, [], 0⟩
          else ⟨some payload, dict_put cache imdbId payload, 1, [], 1⟩

/-- Embedding of OMDbClient.fetch_movie: a cache hit (either outcome)
returns the stored dict with no network access; otherwise the retry loop
runs with max_retries attempts. -/
def fetch_movie (oracle : Nat → Except Unit Payload) (maxRetries : Nat) (cache : Cache)
    (imdbId : String) : FetchResult :=
  match cache_get cache imdbId with
  | some v => ⟨some v, cache, 0, [], 0⟩
  | none => fetch_loop oracle imdbId cache 1 maxRetries

/-- Python truthiness of the Optional payload returned by fetch_movie
(None and the empty dict are falsy). -/
def py_truthy : Option Payload → Bool
  | none => false
  | some p => !p.isEmpty

structure BulkResult where
  result : List (String × Payload)
  cache : Cache
  net : Nat
deriving Repr, DecidableEq

/-- The break condition of fetch_bulk: limit is not None and
counter >= limit. -/
def limit_reached (limit : Option Nat) (counter : Nat) : Bool :=
  match limit with
  | some n => n ≤ counter
  | none => false

/-- Embedding of OMDbClient.fetch_bulk: walk the ids, break at the cap,
skip empty ids without consuming a slot, fetch each id, and record the
returned payload under the id whenever it is truthy. -/
def fetch_bulk_go (oracle : String → Nat → Except Unit Payload) (maxRetries : Nat)
    (limit : Option Nat) :
    List String → Cache → Nat → List (String × Payload) → BulkResult
  | [], cache, _, acc => ⟨acc, cache, 0⟩
  | imdbId :: rest, cache, counter, acc =>
      if limit_reached limit counter then ⟨acc, cache, 0⟩
      else if imdbId = "" then fetch_bulk_go oracle maxRetries limit rest cache counter acc
      else
        let f := fetch_movie (oracle imdbId) maxRetries cache imdbId
        let acc2 := if py_truthy f.payload then dict_put acc imdbId (f.payload.getD []) else acc
        let out := fetch_bulk_go oracle maxRetries limit rest f.cache (counter + 1) acc2
        ⟨out.result, out.cache, out.net + f.net⟩

def fetch_bulk (oracle : String → Nat → Except Unit Payload) (maxRetries : Nat)
    (imdbIds : List String) (limit : Option Nat) (cache : Cache) : BulkResult :=
  fetch_bulk_go oracle maxRetries limit imdbIds cache 0 []

/-! ### extract.py: `_read_csv` and `extract_csv_data`

A pandas DataFrame is modelled as a column-name list plus rows of cells;
the source files are injected as `Option DF` (None models
FileNotFoundError).  Column selection and merging raise KeyError /
MergeError through `Except String`, exactly where pandas raises. -/
structure DF where
  cols : List String
  rows : List (List PyVal)
deriving Repr, DecidableEq

/-- pd.DataFrame(): no columns, no rows. -/
def empty_df : DF := ⟨[], []⟩

/-- Embedding of extract.py `_read_csv`: a missing file yields an empty
DataFrame instead of raising. -/
def read_csv (file : Option DF) : DF := file.getD empty_df

def col_idx (df : DF) (c : String) : Option Nat := df.cols.findIdx? (fun x => x = c)

def get_cell (row : List PyVal) (i : Nat) : PyVal := row.getD i PyVal.naV

/-- Embedding of df[[c1, c2]]: KeyError when any requested column is
absent. -/
def select_cols (df : DF) (cs : List String) : Except String DF :=
  if cs.all (fun c => df.cols.contains c) then
    Except.ok ⟨cs, df.rows.map (fun r => cs.map (fun c => get_cell r ((col_idx df c).getD 0)))⟩
  else Except.error "KeyError"

def has_dup_keys : List PyVal → Bool
  | [] => false
  | k :: rest => rest.any (fun x => pyEq k x) || has_dup_keys rest

def drop_idx (l : List α) (i : Nat) : List α := l.take i ++ l.drop (i + 1)

/-- Embedding of left.merge(right, on=key, how=left,
validate=one_to_one): KeyError when the key column is missing on either
side (in particular when a side is the empty DataFrame); MergeError when
either side has duplicate keys; otherwise each left row is extended by
its unique match or by NaN cells. -/
def merge_one_to_one (left right : DF) (key : String) : Except String DF :=
  match col_idx left key, col_idx right key with
  | some li, some ri =>
      if has_dup_keys (left.rows.map (fun r => get_cell r li)) ||
          has_dup_keys (right.rows.map (fun r => get_cell r ri)) then
        Except.error "MergeError"
      else
        Except.ok ⟨left.cols ++ drop_idx right.cols ri,
          left.rows.map (fun lr =>
            match right.rows.find? (fun rr => pyEq (get_cell rr ri) (get_cell lr li)) with
            | some rr => lr ++ drop_idx rr ri
            | none => lr ++ List.replicate (right.cols.length - 1) PyVal.naV)⟩
  | _, _ => Except.error "KeyError"

/-- extract.py `_extract_year` applied to a cell (non-string cells yield
None). -/
def extract_year_val : PyVal → PyVal
  | PyVal.strV s =>
      match extract_year s with
      | some y => PyVal.intV y
      | none => PyVal.naV
  | _ => PyVal.naV

/-- extract.py `_format_imdb_id` applied to a cell. -/
def format_imdb_id_val (v : PyVal) : PyVal :=
  match format_imdb_id v with
  | some s => PyVal.strV s
  | none => PyVal.naV

/-- Embedding of df[dst] = df[srcCol].apply(f): KeyError when the source
column is missing; the destination column is overwritten in place or
appended. -/
def assign_col (df : DF) (dst srcCol : String) (f : PyVal → PyVal) : Except String DF :=
  match col_idx df srcCol with
  | none => Except.error "KeyError"
  | some i =>
      match col_idx df dst with
      | some j => Except.ok ⟨df.cols, df.rows.map (fun r => r.set j (f (get_cell r i)))⟩
      | none => Except.ok ⟨df.cols ++ [dst], df.rows.map (fun r => r ++ [f (get_cell r i)])⟩

/-- Embedding of extract.py `extract_csv_data`, with the three source
files injected: read the three tables (missing file: empty table), select
movieId and imdbId from links, one-to-one left-merge movies with the
selection, derive the year column from the title, normalize the imdbId
column, and return the joined movie table together with the untouched
ratings table. -/
def extract_csv_data (moviesFile ratingsFile linksFile : Option DF) :
    Except String (DF × DF) := do
  let movies := read_csv moviesFile
  let ratings := read_csv ratingsFile
  let links := read_csv linksFile
  let sel ← select_cols links ["movieId", "imdbId"]
  let movie_link ← merge_one_to_one movies sel "movieId"
  let ml2 ← assign_col movie_link "year" "title" extract_year_val
  let ml3 ← assign_col ml2 "imdbId" "imdbId" format_imdb_id_val
  Except.ok (ml3, ratings)

/-- One well-formed movies table with a single row. -/
def movies_df : DF :=
  ⟨["movieId", "title", "genres"],
   [[PyVal.intV 1, PyVal.strV "Toy Story (1995)", PyVal.strV "Adventure"]]⟩

/-- A movies table with a duplicated movieId (malformed one-to-one
join). -/
def movies_dup_df : DF :=
  ⟨["movieId", "title", "genres"],
   [[PyVal.intV 1, PyVal.strV "A", PyVal.strV "Drama"],
    [PyVal.intV 1, PyVal.strV "B", PyVal.strV "Drama"]]⟩

/-- A well-formed ratings table (empty). -/
def ratings_df : DF := ⟨["userId", "movieId", "rating", "timestamp"], []⟩

/-- A well-formed links table with no rows. -/
def links_df : DF := ⟨["movieId", "imdbId"], []⟩

/-! ### load.py insert functions over a relational store

The SQLite store is modelled by lists of typed rows per table.  The
INSERT OR IGNORE / INSERT OR REPLACE statements of load.py are embedded
as folds over the submitted rows.  The conflict keys come from the schema,
which is not part of the source tree; they are modelled from the spec
(section 3): Movie keyed by movieId, Genre by name (with an autoincrement
id), MovieGenre by the full pair, Rating by (userId, movieId, timestamp),
MovieDetail by movieId. -/
/-- INSERT OR IGNORE of a list of rows: a row whose key already exists in
the table is silently skipped, otherwise it is appended. -/
def insert_ignore [DecidableEq κ] (key : α → κ) (tbl rows : List α) : List α :=
  rows.foldl (fun t r => if t.any (fun x => key x = key r) then t else t ++ [r]) tbl

/-- INSERT OR REPLACE of a list of rows: a row whose key already exists
replaces the conflicting row in place, otherwise it is appended. -/
def insert_replace [DecidableEq κ] (key : α → κ) (tbl rows : List α) : List α :=
  rows.foldl (fun t r =>
    if t.any (fun x => key x = key r) then t.map (fun x => if key x = key r then r else x)
    else t ++ [r]) tbl

/-- The INSERT OR IGNORE fold for the genres table, which also threads the
autoincrement genreId. -/
def insert_genres_fold (st : List (Nat × String) × Nat) (names : List String) :
    List (Nat × String) × Nat :=
  names.foldl (fun acc name =>
    if acc.1.any (fun g => g.2 = name) then acc else (acc.1 ++ [(acc.2, name)], acc.2 + 1)) st

/-- Replaying the replacements of a row list on a single element. -/
def chainApply [DecidableEq κ] (key : α → κ) (rows : List α) (x : α) : α :=
  rows.foldl (fun y r => if key y = key r then r else y) x

/-- A movies row as built by load.py insert_movies:
(movieId, cleanTitle, year, imdbId). -/
structure MovieRec where
  movieId : Int
  title : String
  year : Option Int
  imdbId : Option String
deriving Repr, DecidableEq

/-- A ratings row as built by load.py insert_ratings:
(userId, movieId, rating, timestamp in epoch seconds). -/
structure RatingRec where
  userId : Int
  movieId : Int
  rating : ℚ
  timestamp : Int
deriving Repr, DecidableEq

/-- A movie_details row as built by load.py insert_movie_details. -/
structure DetailRec where
  movieId : Int
  director : Option String
  plot : Option String
  boxOffice : Option String
  imdbRating : Option String
  runtime : Option String
  actors : Option String
  country : Option String
  language : Option String
  awards : Option String
  apiResponseJson : Option String
deriving Repr, DecidableEq

/-- The relational store: one list per table, plus the autoincrement
counter of the genres table. -/
structure Store where
  movies : List MovieRec
  genres : List (Nat × String)
  nextGenreId : Nat
  movie_genres : List (Int × Nat)
  ratings : List RatingRec
  movie_details : List DetailRec
deriving Repr, DecidableEq

/-- Modelled from the spec: the schema file (sql/schema.sql) is not part
of the source tree, so the Movie conflict key is taken from the spec data
model — movieId is the primary key.  Embedding of load.py insert_movies
(INSERT OR IGNORE INTO movies). -/
def insert_movies_s (s : Store) (rows : List MovieRec) : Store :=
  { s with movies := insert_ignore (fun m => m.movieId) s.movies rows }

/-- Modelled from the spec: genreName is unique and genreId autoincrements.
Embedding of load.py insert_genres (INSERT OR IGNORE INTO genres). -/
def insert_genres_s (s : Store) (names : List String) : Store :=
  { s with genres := (insert_genres_fold (s.genres, s.nextGenreId) names).1,
           nextGenreId := (insert_genres_fold (s.genres, s.nextGenreId) names).2 }

/-- The dict comprehension of load.py `_genre_map`, looking a name up in
the genres table. -/
def genre_lookup (genres : List (Nat × String)) (name : String) : Option Nat :=
  (genres.find? (fun g => g.2 = name)).map Prod.fst

/-- Modelled from the spec: the MovieGenre pair is unique.  Embedding of
load.py insert_movie_genres: resolve each genre name through the genre
map, drop pairs whose lookup is missing or falsy (Python `if genre_id:`
also drops a 0 id), then INSERT OR IGNORE the pairs. -/
def insert_movie_genres_s (s : Store) (pairs : List (Int × String)) : Store :=
  let rows := pairs.filterMap (fun p =>
    match genre_lookup s.genres p.2 with
    | some g => if g ≠ 0 then some (p.1, g) else none
    | none => none)
  { s with movie_genres := insert_ignore (fun x => x) s.movie_genres rows }

/-- Modelled from the spec: ratings are unique on
(userId, movieId, timestamp).  Embedding of load.py insert_ratings
(INSERT OR IGNORE INTO ratings). -/
def insert_ratings_s (s : Store) (rows : List RatingRec) : Store :=
  { s with ratings :=
      insert_ignore (fun r => (r.userId, r.movieId, r.timestamp)) s.ratings rows }

/-- Modelled from the spec: movie_details is 1:1 with Movie, keyed by
movieId.  Embedding of load.py insert_movie_details
(INSERT OR REPLACE INTO movie_details). -/
def insert_movie_details_s (s : Store) (rows : List DetailRec) : Store :=
  { s with movie_details := insert_replace (fun d => d.movieId) s.movie_details rows }

/-- One normalized record set, as handed to the five loaders by the
orchestrator (etl.py main). -/
structure RecordSet where
  movies : List MovieRec
  genres : List String
  movie_genres : List (Int × String)
  ratings : List RatingRec
  movie_details : List DetailRec
deriving Repr, DecidableEq

/-- The load phase of etl.py main: insert movies, genres, movie_genres,
ratings and movie_details, in this order, against the same store. -/
def load_all (s : Store) (rs : RecordSet) : Store :=
  insert_movie_details_s
    (insert_ratings_s
      (insert_movie_genres_s
        (insert_genres_s (insert_movies_s s rs.movies) rs.genres)
        rs.movie_genres)
      rs.ratings)
    rs.movie_details

/-! ### Theorems -/

theorem chunked_nil (size : Nat) : chunked ([] : List α) size = [] := by
  rw [chunked.eq_def]
  simp

theorem chunked_zero (l : List α) : chunked l 0 = [] := by
  rw [chunked.eq_def]
  simp

/-- Every chunk is non-empty and has at most `size` elements. -/
theorem chunked_mem_len {l : List α} {size : Nat} :
    ∀ c ∈ chunked l size, c ≠ [] ∧ c.length ≤ size := by
  generalize hn : l.length = n
  induction n using Nat.strong_induction_on generalizing l with
  | _ n ih =>
    intro c hc
    rw [chunked.eq_def] at hc
    split at hc
    · simp at hc
    · rename_i h
      rw [List.isEmpty_iff] at h
      rw [List.mem_cons] at hc
      rcases hc with hc | hc
      · subst hc
        exact ⟨h, by simpa using List.length_take_le size l⟩
      · rw [List.take_eq_nil_iff] at h
        push_neg at h
        have hl : 0 < l.length := List.length_pos.mpr h.2
        have hlt : (l.drop size).length < n := by
          simp only [List.length_drop]
          omega
        exact ih _ (hn ▸ hlt) rfl c hc

/-- Concatenating the chunks in order restores the input list
(for a positive chunk size). -/
theorem chunked_flatten {size : Nat} (hs : 1 ≤ size) :
    ∀ l : List α, (chunked l size).flatten = l := by
  intro l
  generalize hn : l.length = n
  induction n using Nat.strong_induction_on generalizing l with
  | _ n ih =>
    rw [chunked.eq_def]
    split
    · rename_i h
      rw [List.isEmpty_iff, List.take_eq_nil_iff] at h
      rcases h with h | h
      · omega
      · simp [h]
    · rename_i h
      rw [List.isEmpty_iff, List.take_eq_nil_iff] at h
      push_neg at h
      have hl : 0 < l.length := List.length_pos.mpr h.2
      have hlt : (l.drop size).length < n := by
        simp only [List.length_drop]
        omega
      simp only [List.flatten_cons]
      rw [ih _ hlt _ rfl]
      exact List.take_append_drop size l

theorem executemany_append (failP : α → Bool) (st : List α) (xs ys : List α) :
    executemany failP st (xs ++ ys) =
      (executemany failP st xs).bind (fun st2 => executemany failP st2 ys) := by
  induction xs generalizing st with
  | nil => rfl
  | cons x xs ih =>
    simp only [List.cons_append, executemany]
    split
    · rfl
    · exact ih _

/-- Executing the chunks sequentially is the same as executing all rows in
one sweep: the chunk boundaries are invisible to the cursor state. -/
theorem execute_chunks_eq (failP : α → Bool) (st : List α) (rows : List α)
    {size : Nat} (hs : 1 ≤ size) :
    execute_chunks failP st rows size = executemany failP st rows := by
  unfold execute_chunks
  conv_rhs => rw [← chunked_flatten hs rows]
  generalize chunked rows size = cs
  induction cs generalizing st with
  | nil => rfl
  | cons c cs ih =>
    simp only [List.flatten_cons, List.foldlM_cons, executemany_append]
    cases hc : executemany failP st c with
    | error e => rfl
    | ok st2 => exact ih st2

theorem executemany_ok (failP : α → Bool) (st : List α) (rows : List α)
    (h : ∀ r ∈ rows, failP r = false) :
    executemany failP st rows = Except.ok (st ++ rows) := by
  induction rows generalizing st with
  | nil => simp [executemany]
  | cons r rs ih =>
    simp only [executemany, h r (List.mem_cons_self r rs)]
    rw [if_neg (by simp [h r (List.mem_cons_self r rs)])]
    rw [ih _ (fun x hx => h x (List.mem_cons_of_mem r hx))]
    simp

theorem executemany_fails (failP : α → Bool) (st : List α) (rows : List α)
    (h : ∃ r ∈ rows, failP r = true) :
    ∃ e, executemany failP st rows = Except.error e := by
  induction rows generalizing st with
  | nil => simp at h
  | cons r rs ih =>
    by_cases hr : failP r = true
    · exact ⟨st, by simp [executemany, hr]⟩
    · simp only [executemany, hr, if_false]
      rcases h with ⟨x, hx, hfx⟩
      rcases List.mem_cons.mp hx with rfl | hx
      · exact absurd hfx hr
      · exact ih _ ⟨x, hx, hfx⟩

/-! ### Claim theorems for the loader transaction and chunking -/
/-- C10: for every finite sequence of rows and every batch size b with
1 ≤ b, the chunking utility of load.py produces only non-empty chunks of
length at most b whose in-order concatenation equals the input sequence:
every row is submitted exactly once and input order is preserved. -/
theorem claim_C10 (l : List α) (b : Nat) (hb : 1 ≤ b) :
    (∀ c ∈ chunked l b, c ≠ [] ∧ c.length ≤ b) ∧ (chunked l b).flatten = l :=
  ⟨chunked_mem_len, chunked_flatten hb l⟩

theorem claim_C10_witness :
    (∀ c ∈ chunked ([1, 2, 3] : List Nat) 2, c ≠ [] ∧ c.length ≤ 2) ∧
      (chunked ([1, 2, 3] : List Nat) 2).flatten = [1, 2, 3] :=
  claim_C10 [1, 2, 3] 2 (by norm_num)

/-- C1 (counterexample): with batch size 1 and rows r1, r2 where inserting
r2 raises, the claim says batch \x7br1\x7d was already committed in its own
transaction and must remain present after the failure of batch \x7br2\x7d; but
the code wraps all batches of the loader call in one transaction, so the
rollback also removes r1: the connection ends in the empty pre-call state. -/
theorem claim_C1_counterexample :
    insert_batched (fun r => decide (r = 2)) ([] : List Nat) [1, 2] 1 = Except.error [] ∧
      1 ∉ db_after (insert_batched (fun r => decide (r = 2)) ([] : List Nat) [1, 2] 1) := by
  have hch : chunked ([1, 2] : List Nat) 1 = [[1], [2]] := by
    rw [chunked.eq_def]
    norm_num
    rw [chunked.eq_def]
    norm_num
    rw [chunked.eq_def]
    norm_num
  have hins : insert_batched (fun r => decide (r = 2)) ([] : List Nat) [1, 2] 1 =
      Except.error [] := by
    unfold insert_batched execute_chunks
    rw [hch]
    rfl
  exact ⟨hins, by simp [hins, db_after]⟩

/-- C1 (amended): the loader submits rows in consecutive batches of at most
b rows, but all batches of one loader call run inside a single transaction:
if no row fails, the whole call commits and every row is appended once; if
any row fails, the transaction rolls back every row of the call — including
rows of earlier, already-executed batches — and the store returns to its
state before the call, so a partial batch (and a partial call) never lands. -/
theorem claim_C1_amended (failP : α → Bool) (committed rows : List α) (b : Nat)
    (hb : 1 ≤ b) :
    ((∀ r ∈ rows, failP r = false) →
        insert_batched failP committed rows b = Except.ok (committed ++ rows)) ∧
    ((∃ r ∈ rows, failP r = true) →
        insert_batched failP committed rows b = Except.error committed) := by
  constructor
  · intro h
    unfold insert_batched
    rw [execute_chunks_eq _ _ _ hb, executemany_ok _ _ _ h]
  · intro h
    unfold insert_batched
    rw [execute_chunks_eq _ _ _ hb]
    obtain ⟨e, he⟩ := executemany_fails failP committed rows h
    rw [he]

theorem claim_C1_amended_witness :
    ((∀ r ∈ ([5, 6] : List Nat), (fun r => decide (r = 9)) r = false) →
        insert_batched (fun r => decide (r = 9)) ([0] : List Nat) [5, 6] 2 =
          Except.ok ([0] ++ [5, 6])) ∧
    ((∃ r ∈ ([5, 6] : List Nat), (fun r => decide (r = 9)) r = true) →
        insert_batched (fun r => decide (r = 9)) ([0] : List Nat) [5, 6] 2 =
          Except.error [0]) :=
  claim_C1_amended (fun r => decide (r = 9)) [0] [5, 6] 2 (by norm_num)

/-! ### Title cleaning and year extraction: supporting lemmas -/
theorem dropWhile_idem (p : α → Bool) (l : List α) :
    (l.dropWhile p).dropWhile p = l.dropWhile p := by
  induction l with
  | nil => rfl
  | cons a l ih =>
    by_cases h : p a
    · simp [List.dropWhile_cons, h, ih]
    · simp [List.dropWhile_cons, h]

theorem matchYearSuffixRev_dropWhile (l : List Char) :
    matchYearSuffixRev (l.dropWhile isSpacePy) = matchYearSuffixRev l := by
  unfold matchYearSuffixRev
  rw [dropWhile_idem]

theorem rtrim_idem (l : List Char) : rtrim (rtrim l) = rtrim l := by
  unfold rtrim
  rw [List.reverse_reverse, dropWhile_idem]

/-- A successful year-suffix match survives appending whitespace (which,
on the reversed title, is whitespace at the front of the original string):
the matched region is unchanged and the extra characters join the rest. -/
theorem matchYearSuffixRev_some_append {l : List Char} {r : List Char} {y : Nat}
    (w : List Char) (hw : ∀ c ∈ w, isSpacePy c = true)
    (h : matchYearSuffixRev l = some (r, y)) :
    matchYearSuffixRev (l ++ w) = some (r ++ w, y) := by
  unfold matchYearSuffixRev at h ⊢
  rcases hdl : l.dropWhile isSpacePy with _ | ⟨c0, _ | ⟨c1, _ | ⟨c2, _ | ⟨c3, _ | ⟨c4, _ | ⟨c5, rest⟩⟩⟩⟩⟩⟩ <;>
    rw [hdl] at h <;> try simp at h
  · obtain ⟨⟨⟨⟨⟨⟨h0, h1⟩, h2⟩, h3⟩, h4⟩, h5⟩, hr, hy⟩ := h
    subst h0
    subst h5
    subst hr
    subst hy
    simp only [List.dropWhile_append, hdl, List.isEmpty_cons, Bool.false_eq_true, if_false,
      List.cons_append]
    simp [h1, h2, h3, h4]

/-- Stripping a title cannot create a year-suffix match that the raw title
does not have. -/
theorem matchYearSuffixRev_strip_none (t : String)
    (h : matchYearSuffixRev t.data.reverse = none) :
    matchYearSuffixRev (pyStrip t).data.reverse = none := by
  have hu : matchYearSuffixRev (rtrim t.data).reverse = none := by
    unfold rtrim
    rw [List.reverse_reverse, matchYearSuffixRev_dropWhile]
    exact h
  show matchYearSuffixRev (ltrim (rtrim t.data)).reverse = none
  set u := rtrim t.data with hu_def
  cases hM : matchYearSuffixRev (ltrim u).reverse with
  | none => rfl
  | some p =>
    exfalso
    obtain ⟨r, y⟩ := p
    have hsplit : u.reverse = (ltrim u).reverse ++ (u.takeWhile isSpacePy).reverse := by
      conv_lhs => rw [← List.takeWhile_append_dropWhile isSpacePy u]
      rw [List.reverse_append]
      rfl
    have hws : ∀ c ∈ (u.takeWhile isSpacePy).reverse, isSpacePy c = true := by
      intro c hc
      exact List.mem_takeWhile_imp (List.mem_reverse.mp hc)
    have := matchYearSuffixRev_some_append _ hws hM
    rw [← hsplit] at this
    rw [hu] at this
    exact Option.noConfusion this

theorem matchYearSuffixRev_shape (c1 c2 c3 c4 : Char) (pre : List Char)
    (h1 : isDigitPy c1 = true) (h2 : isDigitPy c2 = true)
    (h3 : isDigitPy c3 = true) (h4 : isDigitPy c4 = true) :
    matchYearSuffixRev (')' :: c4 :: c3 :: c2 :: c1 :: '(' :: pre) =
      some (pre, digitVal c1 * 1000 + digitVal c2 * 100 + digitVal c3 * 10 + digitVal c4) := by
  unfold matchYearSuffixRev
  rw [List.dropWhile_cons, if_neg (by decide)]
  simp [h1, h2, h3, h4]

theorem title_data_reverse (x : String) (c1 c2 c3 c4 : Char) :
    (x ++ String.mk [' ', '(', c1, c2, c3, c4, ')']).data.reverse =
      ')' :: c4 :: c3 :: c2 :: c1 :: '(' :: ' ' :: x.data.reverse := by
  rw [String.data_append]
  show (x.data ++ [' ', '(', c1, c2, c3, c4, ')']).reverse = _
  rw [List.reverse_append]
  rfl

/-- C9: for every title of the form X followed by a parenthesized
four-digit year, cleaning yields exactly X whitespace-normalized (outer
whitespace stripped, inner whitespace runs collapsed) and year extraction
yields the four-digit number; for every title with no trailing
parenthesized four-digit year suffix (the anchored matcher finds nothing),
year extraction yields none and cleaning only whitespace-normalizes. -/
theorem claim_C9 :
    (∀ (x : String) (c1 c2 c3 c4 : Char),
        isDigitPy c1 = true → isDigitPy c2 = true →
        isDigitPy c3 = true → isDigitPy c4 = true →
        clean_title (x ++ String.mk [' ', '(', c1, c2, c3, c4, ')']) = wsNormalize x ∧
        extract_year (x ++ String.mk [' ', '(', c1, c2, c3, c4, ')']) =
          some (digitVal c1 * 1000 + digitVal c2 * 100 + digitVal c3 * 10 + digitVal c4)) ∧
    (∀ t : String, matchYearSuffixRev t.data.reverse = none →
        extract_year t = none ∧ clean_title t = wsNormalize t) := by
  constructor
  · intro x c1 c2 c3 c4 h1 h2 h3 h4
    have hM : matchYearSuffixRev
        (x ++ String.mk [' ', '(', c1, c2, c3, c4, ')']).data.reverse =
        some (' ' :: x.data.reverse,
          digitVal c1 * 1000 + digitVal c2 * 100 + digitVal c3 * 10 + digitVal c4) := by
      rw [title_data_reverse]
      exact matchYearSuffixRev_shape c1 c2 c3 c4 _ h1 h2 h3 h4
    constructor
    · unfold clean_title subYearSuffix
      rw [hM]
      have hsub : (((' ' :: x.data.reverse).dropWhile isSpacePy).reverse : List Char) =
          rtrim x.data := by
        rw [List.dropWhile_cons, if_pos (by decide)]
        rfl
      show String.mk (collapseWs (pyStrip
        (String.mk ((' ' :: x.data.reverse).dropWhile isSpacePy).reverse)).data) = wsNormalize x
      rw [hsub]
      unfold wsNormalize pyStrip
      show String.mk (collapseWs (ltrim (rtrim (String.mk (rtrim x.data)).data))) = _
      show String.mk (collapseWs (ltrim (rtrim (rtrim x.data)))) = _
      rw [rtrim_idem]
    · unfold extract_year pyStrip
      have hrt : rtrim (x ++ String.mk [' ', '(', c1, c2, c3, c4, ')']).data =
          (x ++ String.mk [' ', '(', c1, c2, c3, c4, ')']).data := by
        unfold rtrim
        rw [title_data_reverse, List.dropWhile_cons, if_neg (by decide),
          ← title_data_reverse, List.reverse_reverse]
      rw [hrt]
      show (match matchYearSuffixRev
          (ltrim (x ++ String.mk [' ', '(', c1, c2, c3, c4, ')']).data).reverse with
        | some (_, y) => some y
        | none => none) = _
      rw [String.data_append]
      show (match matchYearSuffixRev
          ((x.data ++ [' ', '(', c1, c2, c3, c4, ')']).dropWhile isSpacePy).reverse with
        | some (_, y) => some y
        | none => none) = _
      rw [List.dropWhile_append]
      cases hdlx : x.data.dropWhile isSpacePy with
      | nil =>
        simp only [hdlx, List.isEmpty_nil, if_true]
        rw [List.dropWhile_cons, if_pos (by decide), List.dropWhile_cons, if_neg (by decide)]
        show (match matchYearSuffixRev (')' :: c4 :: c3 :: c2 :: c1 :: '(' :: []) with
          | some (_, y) => some y
          | none => none) = _
        rw [matchYearSuffixRev_shape c1 c2 c3 c4 [] h1 h2 h3 h4]
      | cons z zs =>
        simp only [hdlx, List.isEmpty_cons, Bool.false_eq_true, if_false]
        rw [List.reverse_append]
        show (match matchYearSuffixRev
            (')' :: c4 :: c3 :: c2 :: c1 :: '(' :: ' ' :: (z :: zs).reverse) with
          | some (_, y) => some y
          | none => none) = _
        rw [matchYearSuffixRev_shape c1 c2 c3 c4 _ h1 h2 h3 h4]
  · intro t ht
    constructor
    · unfold extract_year
      rw [matchYearSuffixRev_strip_none t ht]
    · unfold clean_title subYearSuffix
      rw [ht]
      rfl

theorem claim_C9_witness :
    (clean_title ("Toy Story" ++ String.mk [' ', '(', '1', '9', '9', '5', ')']) =
        wsNormalize "Toy Story" ∧
      extract_year ("Toy Story" ++ String.mk [' ', '(', '1', '9', '9', '5', ')']) =
        some (digitVal '1' * 1000 + digitVal '9' * 100 + digitVal '9' * 10 + digitVal '5')) ∧
    (extract_year "No Year Here" = none ∧ clean_title "No Year Here" = wsNormalize "No Year Here") :=
  ⟨claim_C9.1 "Toy Story" '1' '9' '9' '5' (by decide) (by decide) (by decide) (by decide),
   claim_C9.2 "No Year Here" (by decide)⟩

/-! ### External id formatting: supporting lemmas -/
theorem natDigits_ne_nil (n : Nat) : natDigits n ≠ [] := by
  rw [natDigits.eq_def]
  split
  · simp
  · simp

theorem natDigits_all_digit (n : Nat) : (natDigits n).all isDigitPy = true := by
  induction n using Nat.strong_induction_on with
  | _ n ih =>
    rw [natDigits.eq_def]
    have h10 : ∀ m, m < 10 → isDigitPy (Char.ofNat (48 + m)) = true := by decide
    split
    · rename_i h
      simp [h10 n h]
    · rename_i h
      have hlt : n / 10 < n := Nat.div_lt_self (by omega) (by norm_num)
      rw [List.all_append]
      simp [ih _ hlt, h10 (n % 10) (Nat.mod_lt _ (by norm_num))]

theorem natDigits_length_le : ∀ (k n : Nat), 1 ≤ k → n < 10 ^ k →
    (natDigits n).length ≤ k := by
  intro k
  induction k with
  | zero => omega
  | succ k ih =>
    intro n _ hn
    rw [natDigits.eq_def]
    split
    · simp
    · rename_i h
      have hk : 1 ≤ k := by
        by_contra hk0
        have : k = 0 := by omega
        subst this
        simp at hn
        omega
      have hdiv : n / 10 < 10 ^ k := by
        rw [Nat.div_lt_iff_lt_mul (by norm_num)]
        calc n < 10 ^ (k + 1) := hn
        _ = 10 ^ k * 10 := by ring
      have := ih (n / 10) hk hdiv
      simp only [List.length_append, List.length_cons, List.length_nil]
      omega

theorem pyStrOfInt_nonneg (n : Int) (h : 0 ≤ n) :
    pyStrOfInt n = String.mk (natDigits n.natAbs) := by
  unfold pyStrOfInt
  rw [if_neg (by omega)]

theorem digit_not_sign {c : Char} (h : isDigitPy c = true) : (c = '-' || c = '+') = false := by
  by_contra hc
  rcases Bool.or_eq_true_iff.mp (Bool.of_not_eq_false hc) with h1 | h1
  · rw [of_decide_eq_true h1] at h
    exact absurd h (by decide)
  · rw [of_decide_eq_true h1] at h
    exact absurd h (by decide)

theorem zfillChars_length (cs : List Char) (w : Nat) :
    (zfillChars cs w).length = max w cs.length := by
  cases cs with
  | nil =>
    simp only [zfillChars]
    split
    · simp only [List.length_nil]
      omega
    · simp only [List.length_replicate, List.length_nil]
      omega
  | cons c rest =>
    simp only [zfillChars]
    split
    · rename_i h
      simp only [List.length_cons]
      omega
    · rename_i h
      split
      · simp only [List.length_cons, List.length_append, List.length_replicate]
        omega
      · simp only [List.length_append, List.length_replicate, List.length_cons]
        omega

theorem zfillChars_digits (cs : List Char) (w : Nat) (hne : cs ≠ [])
    (hd : cs.all isDigitPy = true) :
    zfillChars cs w = List.replicate (w - cs.length) '0' ++ cs := by
  cases cs with
  | nil => exact absurd rfl hne
  | cons c rest =>
    have hc : isDigitPy c = true := by
      simp only [List.all_cons, Bool.and_eq_true] at hd
      exact hd.1
    simp only [zfillChars]
    split
    · rename_i h
      simp only [List.length_cons]
      have h0 : w - (rest.length + 1) = 0 := by omega
      rw [h0]
      rfl
    · rw [if_neg (by rw [digit_not_sign hc]; simp)]
      rfl

theorem pyZfill_length (s : String) (w : Nat) : (pyZfill s w).length = max w s.length := by
  show (zfillChars s.data w).length = _
  rw [zfillChars_length]
  rfl

theorem pyZfill_digits (s : String) (w : Nat) (hne : s.data ≠ [])
    (hd : s.data.all isDigitPy = true) :
    (pyZfill s w).data = List.replicate (w - s.length) '0' ++ s.data := by
  show zfillChars s.data w = _
  rw [zfillChars_digits s.data w hne hd]
  rfl

theorem replicate_all_digit (m : Nat) : (List.replicate m '0').all isDigitPy = true := by
  rw [List.all_eq_true]
  intro c hc
  rw [List.eq_of_mem_replicate hc]
  decide

/-- Helper for the amended C6: a non-empty digit string of length at most
w zero-fills to exactly w digits. -/
theorem format_digit_string (s : String) (hne : s ≠ "") (hd : s.data.all isDigitPy = true)
    (hlen : s.length ≤ 7) :
    ∃ body, format_imdb_id (PyVal.strV s) = some ("tt" ++ body) ∧
      body.length = 7 ∧ body.data.all isDigitPy = true := by
  refine ⟨pyZfill s 7, ?_, ?_, ?_⟩
  · show (if s = "" then none else some ("tt" ++ pyZfill s 7)) = _
    rw [if_neg hne]
  · rw [pyZfill_length]
    omega
  · have hne2 : s.data ≠ [] := by
      intro h0
      apply hne
      cases s
      simp at h0
      rw [h0]
    rw [pyZfill_digits s 7 hne2 hd, List.all_append, replicate_all_digit, hd]
    rfl

/-- C6 (counterexample): the claim says every present string value
normalizes to tt followed by a numeric body, but _format_imdb_id passes a
non-numeric string straight through the zero-fill: "abc" becomes
"tt0000abc", whose body "0000abc" is not numeric. -/
theorem claim_C6_counterexample :
    format_imdb_id (PyVal.strV "abc") = some "tt0000abc" ∧
      ("0000abc" : String).data.all isDigitPy = false := by
  constructor
  · decide
  · decide

/-- C6 (amended): NaN normalizes to absent, and so does the empty string;
any other string value s maps to tt plus s zero-filled to width at least 7
(never truncated).  The body is guaranteed to be exactly 7 digits only
when the source value is a digit string of length at most 7, a
non-negative integer below 10^7, or a non-negative float below 10^7;
longer values keep their full width and non-numeric strings pass through
unrejected. -/
theorem claim_C6_amended :
    (format_imdb_id PyVal.naV = none) ∧
    (format_imdb_id (PyVal.strV "") = none) ∧
    (∀ s : String, s ≠ "" →
        ∃ body, format_imdb_id (PyVal.strV s) = some ("tt" ++ body) ∧ 7 ≤ body.length) ∧
    (∀ s : String, s ≠ "" → s.data.all isDigitPy = true → s.length ≤ 7 →
        ∃ body, format_imdb_id (PyVal.strV s) = some ("tt" ++ body) ∧
          body.length = 7 ∧ body.data.all isDigitPy = true) ∧
    (∀ n : Int, 0 ≤ n → n < 10 ^ 7 →
        ∃ body, format_imdb_id (PyVal.intV n) = some ("tt" ++ body) ∧
          body.length = 7 ∧ body.data.all isDigitPy = true) ∧
    (∀ q : ℚ, 0 ≤ q → q < 10 ^ 7 →
        ∃ body, format_imdb_id (PyVal.floatV q) = some ("tt" ++ body) ∧
          body.length = 7 ∧ body.data.all isDigitPy = true) := by
  have hstr : ∀ (m : Nat), m < 10 ^ 7 →
      ∃ body, format_imdb_id (PyVal.strV (String.mk (natDigits m))) = some ("tt" ++ body) ∧
        body.length = 7 ∧ body.data.all isDigitPy = true := by
    intro m hm
    apply format_digit_string
    · intro h0
      have : (String.mk (natDigits m)).data = [] := by
        rw [h0]
      exact natDigits_ne_nil m this
    · exact natDigits_all_digit m
    · exact natDigits_length_le 7 m (by norm_num) hm
  refine ⟨rfl, rfl, ?_, ?_, ?_, ?_⟩
  · intro s hs
    refine ⟨pyZfill s 7, ?_, ?_⟩
    · show (if s = "" then none else some ("tt" ++ pyZfill s 7)) = _
      rw [if_neg hs]
    · rw [pyZfill_length]
      omega
  · exact format_digit_string
  · intro n h0 h7
    have : format_imdb_id (PyVal.intV n) =
        format_imdb_id (PyVal.strV (String.mk (natDigits n.natAbs))) := by
      show (if pyStrOfInt n = "" then none else some ("tt" ++ pyZfill (pyStrOfInt n) 7)) = _
      rw [pyStrOfInt_nonneg n h0]
      rfl
    rw [this]
    apply hstr
    have : (10 : Int) ^ 7 = 10000000 := by norm_num
    rw [this] at h7
    omega
  · intro q h0 h7
    have htr : pyTrunc q = ⌊q⌋ := by
      unfold pyTrunc
      rw [if_neg (by exact not_lt.mpr h0)]
    have hfl0 : 0 ≤ ⌊q⌋ := Int.floor_nonneg.mpr h0
    have hfl7 : ⌊q⌋ < 10 ^ 7 := by
      rw [Int.floor_lt]
      push_cast
      exact h7
    have : format_imdb_id (PyVal.floatV q) =
        format_imdb_id (PyVal.strV (String.mk (natDigits (pyTrunc q).natAbs))) := by
      show (if pyStrOfInt (pyTrunc q) = "" then none
          else some ("tt" ++ pyZfill (pyStrOfInt (pyTrunc q)) 7)) = _
      rw [pyStrOfInt_nonneg (pyTrunc q) (by rw [htr]; exact hfl0)]
      rfl
    rw [this]
    apply hstr
    rw [htr]
    have h10 : (10 : Int) ^ 7 = 10000000 := by norm_num
    rw [h10] at hfl7
    omega

theorem claim_C6_amended_witness :
    (∃ body, format_imdb_id (PyVal.strV "114709") = some ("tt" ++ body) ∧
        body.length = 7 ∧ body.data.all isDigitPy = true) ∧
    (∃ body, format_imdb_id (PyVal.intV 114709) = some ("tt" ++ body) ∧
        body.length = 7 ∧ body.data.all isDigitPy = true) ∧
    (∃ body, format_imdb_id (PyVal.floatV 114709) = some ("tt" ++ body) ∧
        body.length = 7 ∧ body.data.all isDigitPy = true) :=
  ⟨claim_C6_amended.2.2.2.1 "114709" (by decide) (by decide) (by decide),
   claim_C6_amended.2.2.2.2.1 114709 (by norm_num) (by norm_num),
   claim_C6_amended.2.2.2.2.2 114709 (by norm_num) (by norm_num)⟩

theorem ratHalf_eq : ratHalf = 1/2 := by
  unfold ratHalf
  rw [Rat.mk'_eq_divInt, Rat.divInt_eq_div]
  norm_num

theorem dedup_go_not_seen :
    ∀ (l seen : List RatingRow), ∀ x ∈ dedup_go seen l, ∀ s ∈ seen, ratingKeyEq s x = false := by
  intro l
  induction l with
  | nil =>
    intro seen x hx
    simp [dedup_go] at hx
  | cons r rs ih =>
    intro seen x hx s hs
    unfold dedup_go at hx
    split at hx
    · exact ih seen x hx s hs
    · rename_i hany
      rcases List.mem_cons.mp hx with rfl | hx2
      · by_contra hne
        exact hany (List.any_eq_true.mpr ⟨s, hs, by
          cases hkq : ratingKeyEq s x
          · exact absurd hkq hne
          · rfl⟩)
      · exact ih (seen ++ [r]) x hx2 s (List.mem_append_left _ hs)

theorem dedup_go_pairwise :
    ∀ (l seen : List RatingRow),
      List.Pairwise (fun a b => ratingKeyEq a b = false) (dedup_go seen l) := by
  intro l
  induction l with
  | nil =>
    intro seen
    simp [dedup_go]
  | cons r rs ih =>
    intro seen
    unfold dedup_go
    split
    · exact ih seen
    · refine List.Pairwise.cons ?_ (ih (seen ++ [r]))
      intro b hb
      exact dedup_go_not_seen rs (seen ++ [r]) b hb r (by simp)

/-- The post-dedup stages of the validation pipeline are a filter followed
by a map. -/
theorem pipeline_eq (l : List RatingRow) :
    ((((((l.map (fun r => { r with rating := to_numeric r.rating })).filter
        (fun r => cmp_ge r.rating ratHalf && cmp_le r.rating 5)).map
        (fun r => { r with timestamp := to_numeric r.timestamp })).filter
        (fun r => notNa r.rating && notNa r.timestamp)).map
        (fun r => { r with timestamp := to_datetime_s r.timestamp })).filter
        (fun r => notNa r.timestamp)) = (l.filter rowG).map rowF := by
  induction l with
  | nil => rfl
  | cons r l ih =>
    by_cases h3 : (cmp_ge (to_numeric r.rating) ratHalf && cmp_le (to_numeric r.rating) 5) = true
    · by_cases h5 : (notNa (to_numeric r.rating) && notNa (to_numeric r.timestamp)) = true
      · by_cases h7 : notNa (to_datetime_s (to_numeric r.timestamp)) = true
        · have hG : rowG r = true := by simp [rowG, h3, h5, h7]
          simp [List.map_cons, List.filter_cons, h3, h5, h7, hG, rowF, ih]
        · rw [Bool.not_eq_true] at h7
          have hG : rowG r = false := by simp [rowG, h7]
          simp [List.map_cons, List.filter_cons, h3, h5, h7, hG, ih]
      · rw [Bool.not_eq_true] at h5
        have hG : rowG r = false := by simp [rowG, h5]
        simp [List.map_cons, List.filter_cons, h3, h5, hG, ih]
    · rw [Bool.not_eq_true] at h3
      have hG : rowG r = false := by simp [rowG, h3]
      simp [List.map_cons, List.filter_cons, h3, hG, ih]

theorem validate_eq (rs : List RatingRow) :
    validate_ratings_dataframe rs = ((dedup_first rs).filter rowG).map rowF := by
  unfold validate_ratings_dataframe
  exact pipeline_eq (dedup_first rs)

theorem cmp_ge_inv {v : PyVal} {b : ℚ} (h : cmp_ge v b = true) :
    ∃ a, numVal v = some a ∧ b ≤ a := by
  unfold cmp_ge at h
  cases hv : numVal v with
  | none => rw [hv] at h; exact absurd h (by simp)
  | some a => rw [hv] at h; exact ⟨a, rfl, by simpa using h⟩

theorem cmp_le_inv {v : PyVal} {b : ℚ} (h : cmp_le v b = true) :
    ∃ a, numVal v = some a ∧ a ≤ b := by
  unfold cmp_le at h
  cases hv : numVal v with
  | none => rw [hv] at h; exact absurd h (by simp)
  | some a => rw [hv] at h; exact ⟨a, rfl, by simpa using h⟩

theorem to_datetime_inst {v : PyVal} (h : notNa (to_datetime_s v) = true) :
    ∃ t, to_datetime_s v = PyVal.instV t := by
  cases v with
  | intV n =>
    simp only [to_datetime_s] at h ⊢
    split at h
    · rename_i hb
      exact ⟨_, by rw [if_pos hb]⟩
    · exact absurd h (by simp [notNa])
  | floatV q =>
    simp only [to_datetime_s] at h ⊢
    split at h
    · rename_i hb
      exact ⟨_, by rw [if_pos hb]⟩
    · exact absurd h (by simp [notNa])
  | naV => exact absurd h (by simp [to_datetime_s, notNa])
  | strV s => exact absurd h (by simp [to_datetime_s, notNa])
  | instV t => exact absurd h (by simp [to_datetime_s, notNa])

/-- C5 (counterexample): two raw rows with the same user, movie and score
whose timestamps are the string "100" and the integer 100 are distinct
under the pre-coercion duplicate key, so both survive drop_duplicates;
after numeric coercion and conversion both timestamps are the same
instant, so the validated output contains two rows sharing the
(userId, movieId, timestamp) triple. -/
theorem claim_C5_counterexample :
    validate_ratings_dataframe
        [⟨PyVal.intV 1, PyVal.intV 1, PyVal.floatV 4, PyVal.strV "100"⟩,
         ⟨PyVal.intV 1, PyVal.intV 1, PyVal.floatV 4, PyVal.intV 100⟩] =
      [⟨PyVal.intV 1, PyVal.intV 1, PyVal.floatV 4, PyVal.instV 100⟩,
       ⟨PyVal.intV 1, PyVal.intV 1, PyVal.floatV 4, PyVal.instV 100⟩] ∧
    (⟨PyVal.intV 1, PyVal.intV 1, PyVal.floatV 4, PyVal.instV 100⟩ : RatingRow).userId =
      (⟨PyVal.intV 1, PyVal.intV 1, PyVal.floatV 4, PyVal.instV 100⟩ : RatingRow).userId ∧
    (⟨PyVal.intV 1, PyVal.intV 1, PyVal.floatV 4, PyVal.instV 100⟩ : RatingRow).timestamp =
      (⟨PyVal.intV 1, PyVal.intV 1, PyVal.floatV 4, PyVal.instV 100⟩ : RatingRow).timestamp := by
  refine ⟨?_, rfl, rfl⟩
  decide

/-- C5 (amended): every validated row has a numeric score within
[0.5, 5.0] and an instant timestamp; duplicates are collapsed (keeping the
first survivor) on the raw (userId, movieId, timestamp) values before
numeric coercion — the deduplicated list has pairwise distinct raw keys,
and the output is exactly a filtered-and-transformed image of it — so two
rows whose raw timestamps differ but coerce to the same value can both
survive, and only the raw triples, not the coerced ones, are guaranteed
unique.  Offending rows are dropped, never corrected. -/
theorem claim_C5_amended :
    (∀ (rs : List RatingRow) (r : RatingRow), r ∈ validate_ratings_dataframe rs →
        (∃ q, numVal r.rating = some q ∧ 1/2 ≤ q ∧ q ≤ 5) ∧
        (∃ t, r.timestamp = PyVal.instV t)) ∧
    (∀ rs : List RatingRow,
        List.Pairwise (fun a b => ratingKeyEq a b = false) (dedup_first rs)) ∧
    (∀ rs : List RatingRow,
        validate_ratings_dataframe rs = ((dedup_first rs).filter rowG).map rowF) := by
  refine ⟨?_, fun rs => dedup_go_pairwise rs [], validate_eq⟩
  intro rs r hr
  rw [validate_eq] at hr
  obtain ⟨x, hx, rfl⟩ := List.mem_map.mp hr
  have hGx : rowG x = true := (List.mem_filter.mp hx).2
  unfold rowG at hGx
  simp only [Bool.and_eq_true] at hGx
  obtain ⟨⟨⟨hge, hle⟩, _, _⟩, h7⟩ := hGx
  constructor
  · obtain ⟨a, ha, hga⟩ := cmp_ge_inv hge
    obtain ⟨a2, ha2, hla⟩ := cmp_le_inv hle
    rw [ha] at ha2
    injection ha2 with ha2
    subst ha2
    rw [ratHalf_eq] at hga
    exact ⟨a, ha, hga, hla⟩
  · obtain ⟨t, ht⟩ := to_datetime_inst h7
    exact ⟨t, ht⟩

theorem claim_C5_amended_witness :
    (∃ q, numVal
        (⟨PyVal.intV 1, PyVal.intV 1, PyVal.floatV 4, PyVal.instV 100⟩ : RatingRow).rating =
          some q ∧ 1/2 ≤ q ∧ q ≤ 5) ∧
    (∃ t, (⟨PyVal.intV 1, PyVal.intV 1, PyVal.floatV 4, PyVal.instV 100⟩ : RatingRow).timestamp =
        PyVal.instV t) :=
  claim_C5_amended.1 [⟨PyVal.intV 1, PyVal.intV 1, PyVal.floatV 4, PyVal.intV 100⟩]
    ⟨PyVal.intV 1, PyVal.intV 1, PyVal.floatV 4, PyVal.instV 100⟩ (by decide)

/-! ### Cache and dict lemmas -/
theorem find_put_replace (c : List (String × β)) (k : String) (v : β)
    (h : c.any (fun kv => kv.1 = k) = true) :
    (c.map (fun kv => if kv.1 = k then (k, v) else kv)).find? (fun kv => kv.1 = k) =
      some (k, v) := by
  induction c with
  | nil => simp at h
  | cons kv c ih =>
    by_cases hk : kv.1 = k
    · simp only [List.map_cons, if_pos hk]
      rw [List.find?_cons_of_pos _ (by simp)]
    · simp only [List.map_cons, if_neg hk]
      rw [List.find?_cons_of_neg _ (by simpa using hk)]
      apply ih
      simp only [List.any_cons, Bool.or_eq_true] at h
      rcases h with h | h
      · exact absurd (of_decide_eq_true h) hk
      · exact h

theorem find_append_none (l1 l2 : List (String × β)) (p : String × β → Bool)
    (h : l1.find? p = none) : (l1 ++ l2).find? p = l2.find? p := by
  induction l1 with
  | nil => rfl
  | cons kv l1 ih =>
    cases hp : p kv with
    | true =>
      rw [List.find?_cons_of_pos _ hp] at h
      exact absurd h (by simp)
    | false =>
      rw [List.find?_cons_of_neg _ (by simp [hp])] at h
      rw [List.cons_append, List.find?_cons_of_neg _ (by simp [hp])]
      exact ih h

theorem cache_get_put_self (c : List (String × β)) (k : String) (v : β) :
    cache_get (dict_put c k v) k = some v := by
  unfold cache_get dict_put
  split
  · rename_i h
    rw [find_put_replace c k v h]
    rfl
  · rename_i h
    have hnone : c.find? (fun kv => kv.1 = k) = none := by
      rw [List.find?_eq_none]
      intro x hx hpx
      exact h (List.any_eq_true.mpr ⟨x, hx, hpx⟩)
    rw [find_append_none c [(k, v)] _ hnone]
    rw [List.find?_cons_of_pos _ (by simp)]
    rfl

/-! ### fetch_movie lemmas -/
theorem fetch_loop_err (oracle : Nat → Except Unit Payload) (imdbId : String) (cache : Cache)
    (attempt rem : Nat) (e : Unit) (h : oracle attempt = Except.error e) :
    fetch_loop oracle imdbId cache attempt (rem + 1) =
      ⟨(fetch_loop oracle imdbId cache (attempt + 1) rem).payload,
       (fetch_loop oracle imdbId cache (attempt + 1) rem).cache,
       (fetch_loop oracle imdbId cache (attempt + 1) rem).net + 1,
       backoff_delay attempt :: (fetch_loop oracle imdbId cache (attempt + 1) rem).backoffs,
       (fetch_loop oracle imdbId cache (attempt + 1) rem).rate_sleeps⟩ := by
  conv_lhs => unfold fetch_loop
  rw [h]

theorem fetch_loop_notfound (oracle : Nat → Except Unit Payload) (imdbId : String)
    (cache : Cache) (attempt rem : Nat) (p : Payload) (h : oracle attempt = Except.ok p)
    (hresp : dget p "Response" = some "False") :
    fetch_loop oracle imdbId cache attempt (rem + 1) =
      ⟨none, dict_put cache imdbId (neg_marker ((dget p "Error").getD "unknown error")),
       1, [], 0⟩ := by
  conv_lhs => unfold fetch_loop
  rw [h]
  simp [hresp]

theorem fetch_loop_ok (oracle : Nat → Except Unit Payload) (imdbId : String) (cache : Cache)
    (attempt rem : Nat) (p : Payload) (h : oracle attempt = Except.ok p)
    (hresp : ¬ dget p "Response" = some "False") :
    fetch_loop oracle imdbId cache attempt (rem + 1) =
      ⟨some p, dict_put cache imdbId p, 1, [], 1⟩ := by
  conv_lhs => unfold fetch_loop
  rw [h]
  simp [hresp]

/-- A fresh fetch never returns a payload marked Response False: the loop
converts that case into None plus a cached negative marker. -/
theorem fetch_loop_resp (oracle : Nat → Except Unit Payload) (imdbId : String) (cache : Cache) :
    ∀ (rem attempt : Nat) (p : Payload),
      (fetch_loop oracle imdbId cache attempt rem).payload = some p →
      dget p "Response" ≠ some "False" := by
  intro rem
  induction rem with
  | zero =>
    intro attempt p h
    exact absurd h (by simp [fetch_loop])
  | succ rem ih =>
    intro attempt p h
    cases horacle : oracle attempt with
    | error e =>
      rw [fetch_loop_err oracle imdbId cache attempt rem e horacle] at h
      exact ih (attempt + 1) p h
    | ok payload =>
      by_cases hresp : dget payload "Response" = some "False"
      · rw [fetch_loop_notfound oracle imdbId cache attempt rem payload horacle hresp] at h
        exact absurd h (by simp)
      · rw [fetch_loop_ok oracle imdbId cache attempt rem payload horacle hresp] at h
        injection h with h
        subst h
        exact hresp

/-- A successful fresh fetch leaves the returned payload in the cache
under the fetched id. -/
theorem fetch_loop_caches (oracle : Nat → Except Unit Payload) (imdbId : String) (cache : Cache) :
    ∀ (rem attempt : Nat) (p : Payload),
      (fetch_loop oracle imdbId cache attempt rem).payload = some p →
      cache_get (fetch_loop oracle imdbId cache attempt rem).cache imdbId = some p := by
  intro rem
  induction rem with
  | zero =>
    intro attempt p h
    exact absurd h (by simp [fetch_loop])
  | succ rem ih =>
    intro attempt p h
    cases horacle : oracle attempt with
    | error e =>
      rw [fetch_loop_err oracle imdbId cache attempt rem e horacle] at h ⊢
      exact ih (attempt + 1) p h
    | ok payload =>
      by_cases hresp : dget payload "Response" = some "False"
      · rw [fetch_loop_notfound oracle imdbId cache attempt rem payload horacle hresp] at h
        exact absurd h (by simp)
      · rw [fetch_loop_ok oracle imdbId cache attempt rem payload horacle hresp] at h ⊢
        injection h with h
        subst h
        exact cache_get_put_self cache imdbId _

/-- A fetch that returns None either left the cache untouched (retry
exhaustion) or cached a negative entry for the id (structured
not-found). -/
theorem fetch_loop_none (oracle : Nat → Except Unit Payload) (imdbId : String) (cache : Cache) :
    ∀ (rem attempt : Nat),
      (fetch_loop oracle imdbId cache attempt rem).payload = none →
      (fetch_loop oracle imdbId cache attempt rem).cache = cache ∨
        (cache_get (fetch_loop oracle imdbId cache attempt rem).cache imdbId).isSome = true := by
  intro rem
  induction rem with
  | zero =>
    intro attempt _
    exact Or.inl rfl
  | succ rem ih =>
    intro attempt h
    cases horacle : oracle attempt with
    | error e =>
      rw [fetch_loop_err oracle imdbId cache attempt rem e horacle] at h ⊢
      exact ih (attempt + 1) h
    | ok payload =>
      by_cases hresp : dget payload "Response" = some "False"
      · rw [fetch_loop_notfound oracle imdbId cache attempt rem payload horacle hresp]
        refine Or.inr ?_
        rw [cache_get_put_self]
        rfl
      · rw [fetch_loop_ok oracle imdbId cache attempt rem payload horacle hresp] at h
        exact absurd h (by simp)

/-- C4: after a first fetch for an id completes with a success outcome
(the returned payload is cached under the id) or a structured not-found
outcome (the only way a None result changes the cache, and it leaves the
id cached), the id is in the cache, and every subsequent fetch for the
same id is answered from the cache with zero network requests, zero
backoff sleeps, zero rate-limit sleeps, and no cache change — whichever
of the two outcomes was cached. -/
theorem claim_C4 (oracle1 oracle2 : Nat → Except Unit Payload) (maxR : Nat) (cache : Cache)
    (imdbId : String) :
    (∀ p, (fetch_movie oracle1 maxR cache imdbId).payload = some p →
        cache_get (fetch_movie oracle1 maxR cache imdbId).cache imdbId = some p) ∧
    ((fetch_movie oracle1 maxR cache imdbId).payload = none →
      (fetch_movie oracle1 maxR cache imdbId).cache ≠ cache →
      (cache_get (fetch_movie oracle1 maxR cache imdbId).cache imdbId).isSome = true) ∧
    ((cache_get (fetch_movie oracle1 maxR cache imdbId).cache imdbId).isSome = true →
      fetch_movie oracle2 maxR (fetch_movie oracle1 maxR cache imdbId).cache imdbId =
        ⟨cache_get (fetch_movie oracle1 maxR cache imdbId).cache imdbId,
         (fetch_movie oracle1 maxR cache imdbId).cache, 0, [], 0⟩) := by
  have hmv : ∀ hc : cache_get cache imdbId = none,
      fetch_movie oracle1 maxR cache imdbId = fetch_loop oracle1 imdbId cache 1 maxR := by
    intro hc
    unfold fetch_movie
    rw [hc]
  have hmv2 : ∀ (v : Payload), cache_get cache imdbId = some v →
      fetch_movie oracle1 maxR cache imdbId = ⟨some v, cache, 0, [], 0⟩ := by
    intro v hc
    unfold fetch_movie
    rw [hc]
  refine ⟨?_, ?_, ?_⟩
  · intro p h
    cases hc : cache_get cache imdbId with
    | some v =>
      rw [hmv2 v hc] at h ⊢
      injection h with h
      subst h
      exact hc
    | none =>
      rw [hmv hc] at h ⊢
      exact fetch_loop_caches oracle1 imdbId cache maxR 1 p h
  · intro h hne
    cases hc : cache_get cache imdbId with
    | some v =>
      rw [hmv2 v hc] at h
      exact absurd h (by simp)
    | none =>
      rw [hmv hc] at h hne ⊢
      rcases fetch_loop_none oracle1 imdbId cache maxR 1 h with heq | hsome
      · exact absurd heq hne
      · exact hsome
  · intro h
    obtain ⟨v, hv⟩ := Option.isSome_iff_exists.mp h
    generalize (fetch_movie oracle1 maxR cache imdbId) = f1 at hv ⊢
    unfold fetch_movie
    rw [hv]

theorem claim_C4_witness :
    fetch_movie (fun _ => Except.error ()) 3
        (fetch_movie (fun _ => Except.ok [("Title", "X")]) 3 [] "tt0000001").cache "tt0000001" =
      ⟨cache_get (fetch_movie (fun _ => Except.ok [("Title", "X")]) 3 [] "tt0000001").cache
          "tt0000001",
       (fetch_movie (fun _ => Except.ok [("Title", "X")]) 3 [] "tt0000001").cache, 0, [], 0⟩ :=
  (claim_C4 (fun _ => Except.ok [("Title", "X")]) (fun _ => Except.error ()) 3 []
    "tt0000001").2.2 (by decide)

/-- Exact run of the retry loop on N transport failures followed by one
success: the payload is returned and cached, N + 1 requests are issued,
and the N backoff delays are min(5, 0.5 * 2 ** (attempt - 1)) for
attempts a, a + 1, ..., a + N - 1. -/
theorem fetch_loop_run (oracle : Nat → Except Unit Payload) (imdbId : String)
    (p : Payload) (hp : ¬ dget p "Response" = some "False") :
    ∀ (N a rem : Nat) (cache : Cache), N < rem →
      (∀ k, a ≤ k → k < a + N → oracle k = Except.error ()) →
      oracle (a + N) = Except.ok p →
      fetch_loop oracle imdbId cache a rem =
        ⟨some p, dict_put cache imdbId p, N + 1,
         (List.range N).map (fun j => backoff_delay (a + j)), 1⟩ := by
  intro N
  induction N with
  | zero =>
    intro a rem cache hrem hfail hok
    obtain ⟨r, rfl⟩ : ∃ r, rem = r + 1 := ⟨rem - 1, by omega⟩
    rw [fetch_loop_ok oracle imdbId cache a r p (by simpa using hok) hp]
    rfl
  | succ N ih =>
    intro a rem cache hrem hfail hok
    obtain ⟨r, rfl⟩ : ∃ r, rem = r + 1 := ⟨rem - 1, by omega⟩
    have herr : oracle a = Except.error () := hfail a (Nat.le_refl a) (by omega)
    rw [fetch_loop_err oracle imdbId cache a r () herr]
    rw [ih (a + 1) r cache (by omega)
      (fun k hk1 hk2 => hfail k (by omega) (by omega))
      (by rw [show a + (N + 1) = a + 1 + N by omega] at hok; exact hok)]
    have hrange : (List.range (N + 1)).map (fun j => backoff_delay (a + j)) =
        backoff_delay a :: (List.range N).map (fun j => backoff_delay (a + 1 + j)) := by
      rw [List.range_succ_eq_map, List.map_cons, List.map_map]
      refine congrArg₂ _ (by rw [Nat.add_zero]) ?_
      apply List.map_congr_left
      intro j _
      show backoff_delay (a + (j + 1)) = backoff_delay (a + 1 + j)
      rw [show a + (j + 1) = a + 1 + j by omega]
    rw [hrange]

/-- C7: starting from a cache without the id, a fetch that sees N
transient transport failures (0 < N < the configured maximum attempt
count) followed by one successful response returns the payload, leaves
exactly one cache entry for the id (the success payload), and sleeps
exactly N backoff delays, each equal to the double of the previous one
capped at the 5-second ceiling, and all at most the ceiling. -/
theorem claim_C7 (oracle : Nat → Except Unit Payload) (maxR N : Nat) (cache : Cache)
    (imdbId : String) (p : Payload)
    (hN : 0 < N) (hmax : N < maxR)
    (hcache : ∀ e ∈ cache, e.1 ≠ imdbId)
    (hfail : ∀ k, 1 ≤ k → k ≤ N → oracle k = Except.error ())
    (hok : oracle (N + 1) = Except.ok p)
    (hp : ¬ dget p "Response" = some "False") :
    (fetch_movie oracle maxR cache imdbId).payload = some p ∧
    ((fetch_movie oracle maxR cache imdbId).cache.filter
        (fun e => e.1 = imdbId)).length = 1 ∧
    cache_get (fetch_movie oracle maxR cache imdbId).cache imdbId = some p ∧
    (fetch_movie oracle maxR cache imdbId).backoffs.length = N ∧
    List.Chain' (fun a b => b = min 5 (2 * a)) (fetch_movie oracle maxR cache imdbId).backoffs ∧
    (∀ d ∈ (fetch_movie oracle maxR cache imdbId).backoffs, d ≤ 5) := by
  have hget : cache_get cache imdbId = none := by
    unfold cache_get
    rw [List.find?_eq_none.mpr (fun x hx => by simpa using hcache x hx)]
    rfl
  have hmovie : fetch_movie oracle maxR cache imdbId = fetch_loop oracle imdbId cache 1 maxR := by
    unfold fetch_movie
    rw [hget]
  have hrun := fetch_loop_run oracle imdbId p hp N 1 maxR cache hmax
    (fun k hk1 hk2 => hfail k hk1 (by omega))
    (by rw [show 1 + N = N + 1 by omega]; exact hok)
  rw [hmovie, hrun]
  have hanyf : cache.any (fun kv => kv.1 = imdbId) = false := by
    rw [Bool.eq_false_iff]
    intro hany
    obtain ⟨x, hx, hpx⟩ := List.any_eq_true.mp hany
    exact hcache x hx (of_decide_eq_true hpx)
  have hput : dict_put cache imdbId p = cache ++ [(imdbId, p)] := by
    unfold dict_put
    rw [hanyf]
    simp
  have hdelay : ∀ j : Nat, backoff_delay (1 + j) = min 5 (ratHalf * 2 ^ j) := by
    intro j
    unfold backoff_delay
    rw [show 1 + j - 1 = j by omega]
  refine ⟨rfl, ?_, ?_, ?_, ?_, ?_⟩
  · show ((dict_put cache imdbId p).filter (fun e => e.1 = imdbId)).length = 1
    rw [hput, List.filter_append]
    rw [List.filter_eq_nil_iff.mpr (fun x hx => by simpa using hcache x hx)]
    simp
  · show cache_get (dict_put cache imdbId p) imdbId = some p
    exact cache_get_put_self cache imdbId p
  · simp
  · show List.Chain' _ ((List.range N).map (fun j => backoff_delay (1 + j)))
    rw [List.chain'_map]
    obtain ⟨m, rfl⟩ : ∃ m, N = m + 1 := ⟨N - 1, by omega⟩
    rw [List.chain'_range_succ]
    intro j _
    rw [hdelay j, hdelay (j + 1)]
    have h2y : ratHalf * 2 ^ (j + 1) = 2 * (ratHalf * 2 ^ j) := by ring
    rw [h2y]
    rcases le_total (ratHalf * 2 ^ j) 5 with hle | hle
    · rw [min_eq_right hle]
    · rw [min_eq_left hle]
      rw [min_eq_left (by linarith), min_eq_left (by linarith)]
  · intro d hd
    obtain ⟨j, _, rfl⟩ := List.mem_map.mp hd
    exact min_le_left _ _

theorem claim_C7_witness :
    (fetch_movie (fun k => if k = 1 then Except.error () else Except.ok [("Title", "A")]) 2 []
        "tt0000002").payload = some [("Title", "A")] ∧
    ((fetch_movie (fun k => if k = 1 then Except.error () else Except.ok [("Title", "A")]) 2 []
        "tt0000002").cache.filter (fun e => e.1 = "tt0000002")).length = 1 ∧
    cache_get (fetch_movie (fun k => if k = 1 then Except.error () else Except.ok [("Title", "A")])
        2 [] "tt0000002").cache "tt0000002" = some [("Title", "A")] ∧
    (fetch_movie (fun k => if k = 1 then Except.error () else Except.ok [("Title", "A")]) 2 []
        "tt0000002").backoffs.length = 1 ∧
    List.Chain' (fun a b => b = min 5 (2 * a))
      (fetch_movie (fun k => if k = 1 then Except.error () else Except.ok [("Title", "A")]) 2 []
        "tt0000002").backoffs ∧
    (∀ d ∈ (fetch_movie (fun k => if k = 1 then Except.error () else Except.ok [("Title", "A")])
        2 [] "tt0000002").backoffs, d ≤ 5) :=
  claim_C7 (fun k => if k = 1 then Except.error () else Except.ok [("Title", "A")]) 2 1 []
    "tt0000002" [("Title", "A")] (by norm_num) (by norm_num) (by simp)
    (fun k hk1 hk2 => by
      have : k = 1 := by omega
      subst this
      rfl)
    (by rfl) (by decide)

/-! ### fetch_bulk lemmas and claims -/
theorem dict_put_mem {c : List (String × β)} {k : String} {v : β} {a : String} {b : β}
    (h : (a, b) ∈ dict_put c k v) : (a, b) ∈ c ∨ (a = k ∧ b = v) := by
  unfold dict_put at h
  split at h
  · obtain ⟨kv, hkv, heq⟩ := List.mem_map.mp h
    by_cases hk : kv.1 = k
    · rw [if_pos hk] at heq
      right
      exact ⟨congrArg Prod.fst heq.symm, congrArg Prod.snd heq.symm⟩
    · rw [if_neg hk] at heq
      left
      rw [← heq]
      exact hkv
  · rcases List.mem_append.mp h with h2 | h2
    · exact Or.inl h2
    · right
      simp only [List.mem_singleton] at h2
      exact ⟨congrArg Prod.fst h2, congrArg Prod.snd h2⟩

theorem dict_put_length (c : List (String × β)) (k : String) (v : β) :
    (dict_put c k v).length ≤ c.length + 1 := by
  unfold dict_put
  split
  · rw [List.length_map]
    omega
  · rw [List.length_append]
    simp

/-- Entries of the bulk result come from the accumulator or are non-empty
ids of the input list mapped to truthy (non-empty) payloads. -/
theorem fetch_bulk_go_mem (oracle : String → Nat → Except Unit Payload) (maxR : Nat)
    (limit : Option Nat) :
    ∀ (ids : List String) (cache : Cache) (counter : Nat) (acc : List (String × Payload))
      (k : String) (p : Payload),
      (k, p) ∈ (fetch_bulk_go oracle maxR limit ids cache counter acc).result →
      (k, p) ∈ acc ∨ (k ≠ "" ∧ k ∈ ids ∧ p ≠ []) := by
  intro ids
  induction ids with
  | nil =>
    intro cache counter acc k p h
    exact Or.inl h
  | cons imdbId rest ih =>
    intro cache counter acc k p h
    unfold fetch_bulk_go at h
    split at h
    · exact Or.inl h
    · split at h
      · rename_i hempty
        rcases ih cache counter acc k p h with h2 | ⟨h2, h3, h4⟩
        · exact Or.inl h2
        · exact Or.inr ⟨h2, List.mem_cons_of_mem _ h3, h4⟩
      · rename_i hlim hempty
        rcases ih _ _ _ k p h with h2 | ⟨h2, h3, h4⟩
        · by_cases htr : py_truthy (fetch_movie (oracle imdbId) maxR cache imdbId).payload = true
          · rw [if_pos htr] at h2
            rcases dict_put_mem h2 with h5 | ⟨h5, h6⟩
            · exact Or.inl h5
            · subst h5
              refine Or.inr ⟨hempty, List.mem_cons_self _ _, ?_⟩
              subst h6
              unfold py_truthy at htr
              cases hpay : (fetch_movie (oracle k) maxR cache k).payload with
              | none => rw [hpay] at htr; exact absurd htr (by simp)
              | some q => simp_all
          · rw [if_neg htr] at h2
            exact Or.inl h2
        · exact Or.inr ⟨h2, List.mem_cons_of_mem _ h3, h4⟩

/-- The bulk result never exceeds the cap. -/
theorem fetch_bulk_go_len (oracle : String → Nat → Except Unit Payload) (maxR : Nat) (n : Nat) :
    ∀ (ids : List String) (cache : Cache) (counter : Nat) (acc : List (String × Payload)),
      (fetch_bulk_go oracle maxR (some n) ids cache counter acc).result.length ≤
        acc.length + (n - counter) := by
  intro ids
  induction ids with
  | nil =>
    intro cache counter acc
    simp [fetch_bulk_go]
  | cons imdbId rest ih =>
    intro cache counter acc
    unfold fetch_bulk_go
    split
    · simp
    · split
      · exact ih cache counter acc
      · rename_i hlim hempty
        have hcnt : counter < n := by
          unfold limit_reached at hlim
          simp only [Bool.not_eq_true, decide_eq_false_iff_not, not_le] at hlim
          omega
        refine le_trans (ih _ (counter + 1) _) ?_
        have hacc2 : (if py_truthy (fetch_movie (oracle imdbId) maxR cache imdbId).payload then
            dict_put acc imdbId
              ((fetch_movie (oracle imdbId) maxR cache imdbId).payload.getD [])
          else acc).length ≤ acc.length + 1 := by
          split
          · exact dict_put_length acc imdbId _
          · omega
        omega

/-- Empty ids are skipped without any observable effect: the run on the
raw id list equals the run on the list with empty ids removed. -/
theorem fetch_bulk_go_filter (oracle : String → Nat → Except Unit Payload) (maxR : Nat)
    (limit : Option Nat) :
    ∀ (ids : List String) (cache : Cache) (counter : Nat) (acc : List (String × Payload)),
      fetch_bulk_go oracle maxR limit ids cache counter acc =
        fetch_bulk_go oracle maxR limit (ids.filter (fun s => s ≠ "")) cache counter acc := by
  have hstop : ∀ (ids : List String) (cache : Cache) (counter : Nat)
      (acc : List (String × Payload)), limit_reached limit counter = true →
      fetch_bulk_go oracle maxR limit ids cache counter acc = ⟨acc, cache, 0⟩ := by
    intro ids cache counter acc h
    cases ids with
    | nil => rfl
    | cons imdbId rest =>
      unfold fetch_bulk_go
      rw [if_pos h]
  intro ids
  induction ids with
  | nil =>
    intro cache counter acc
    rfl
  | cons imdbId rest ih =>
    intro cache counter acc
    by_cases hempty : imdbId = ""
    · subst hempty
      rw [List.filter_cons_of_neg (by simp)]
      by_cases hlim : limit_reached limit counter = true
      · rw [hstop _ _ _ _ hlim, hstop _ _ _ _ hlim]
      · conv_lhs => unfold fetch_bulk_go
        rw [if_neg hlim, if_pos rfl]
        exact ih cache counter acc
    · rw [List.filter_cons_of_pos (by simpa using hempty)]
      by_cases hlim : limit_reached limit counter = true
      · rw [hstop _ _ _ _ hlim, hstop _ _ _ _ hlim]
      · conv_lhs => unfold fetch_bulk_go
        conv_rhs => unfold fetch_bulk_go
        simp only [if_neg hlim, if_neg hempty]
        simp only [ih]

/-- C2 (counterexample): a negative outcome served from the cache IS
returned by the bulk fetch: with the cache holding the not-found marker
for tt0000003, fetch_bulk returns a mapping containing that id bound to
the marker (and issues no network request), although the id resolved to
not found. -/
theorem claim_C2_counterexample :
    (fetch_bulk (fun _ _ => Except.error ()) 3 ["tt0000003"] none
        [("tt0000003", neg_marker "Movie not found!")]).result =
      [("tt0000003", neg_marker "Movie not found!")] ∧
    dget (neg_marker "Movie not found!") "Response" = some "False" ∧
    (fetch_bulk (fun _ _ => Except.error ()) 3 ["tt0000003"] none
        [("tt0000003", neg_marker "Movie not found!")]).net = 0 := by
  refine ⟨by decide, by decide, by decide⟩

/-- C2 (amended): every entry of the bulk mapping has a non-empty id drawn
from the input collection and a truthy (non-empty dict) payload — the
value fetch_movie returned for it; with a cap of n the mapping has at most
n entries; empty ids are skipped without consuming a cap slot (the run
equals the run on the list with empty ids removed); and a FRESHLY fetched
id never yields a Response False payload, so the only not-found entries
the mapping can contain are negative outcomes served from the cache
(which do appear, as the counterexample shows). -/
theorem claim_C2_amended :
    (∀ (oracle : String → Nat → Except Unit Payload) (maxR : Nat) (ids : List String)
        (limit : Option Nat) (cache : Cache) (k : String) (p : Payload),
        (k, p) ∈ (fetch_bulk oracle maxR ids limit cache).result →
        k ≠ "" ∧ k ∈ ids ∧ p ≠ []) ∧
    (∀ (oracle : String → Nat → Except Unit Payload) (maxR : Nat) (ids : List String)
        (n : Nat) (cache : Cache),
        (fetch_bulk oracle maxR ids (some n) cache).result.length ≤ n) ∧
    (∀ (oracle : String → Nat → Except Unit Payload) (maxR : Nat) (ids : List String)
        (limit : Option Nat) (cache : Cache),
        fetch_bulk oracle maxR ids limit cache =
          fetch_bulk oracle maxR (ids.filter (fun s => s ≠ "")) limit cache) ∧
    (∀ (oracle2 : Nat → Except Unit Payload) (maxR : Nat) (cache2 : Cache) (imdbId : String)
        (p : Payload),
        cache_get cache2 imdbId = none →
        (fetch_movie oracle2 maxR cache2 imdbId).payload = some p →
        dget p "Response" ≠ some "False") := by
  refine ⟨?_, ?_, ?_, ?_⟩
  · intro oracle maxR ids limit cache k p h
    rcases fetch_bulk_go_mem oracle maxR limit ids cache 0 [] k p h with h2 | h2
    · simp at h2
    · exact h2
  · intro oracle maxR ids n cache
    have := fetch_bulk_go_len oracle maxR n ids cache 0 []
    simpa using this
  · intro oracle maxR ids limit cache
    exact fetch_bulk_go_filter oracle maxR limit ids cache 0 []
  · intro oracle2 maxR cache2 imdbId p hget h
    have hmv : fetch_movie oracle2 maxR cache2 imdbId =
        fetch_loop oracle2 imdbId cache2 1 maxR := by
      unfold fetch_movie
      rw [hget]
    rw [hmv] at h
    exact fetch_loop_resp oracle2 imdbId cache2 maxR 1 p h

theorem claim_C2_amended_witness :
    ("tt0000003" ≠ "" ∧ "tt0000003" ∈ ["tt0000003"] ∧
      neg_marker "Movie not found!" ≠ []) ∧
    (fetch_bulk (fun _ _ => Except.ok [("Title", "B")]) 3 ["tt0000004", ""] (some 1)
        []).result.length ≤ 1 ∧
    dget [("Title", "B")] "Response" ≠ some "False" :=
  ⟨claim_C2_amended.1 (fun _ _ => Except.error ()) 3 ["tt0000003"] none
      [("tt0000003", neg_marker "Movie not found!")] "tt0000003"
      (neg_marker "Movie not found!") (by decide),
   claim_C2_amended.2.1 (fun _ _ => Except.ok [("Title", "B")]) 3 ["tt0000004", ""] 1 [],
   claim_C2_amended.2.2.2 (fun _ => Except.ok [("Title", "B")]) 3 [] "tt0000004"
     [("Title", "B")] (by decide) (by decide)⟩

/-- C3: the claim promises that any missing source file yields an empty
table and extraction completes without raising, failing only on a
malformed one-to-one join.  The code keeps that promise only for the
ratings file: when the links file is missing, `_read_csv` returns the
empty DataFrame and the very next line, links[[movieId, imdbId]], raises
KeyError, so extraction aborts — contradicting the tolerate-missing
intent that `_read_csv` and the movies-or-links-missing warning log
implement.  A malformed join does abort with MergeError, and a missing
ratings file does complete with an empty ratings table. -/
theorem claim_C3 :
    extract_csv_data (some movies_df) (some ratings_df) none = Except.error "KeyError" ∧
    extract_csv_data (some movies_df) none (some links_df) =
      Except.ok
        (⟨["movieId", "title", "genres", "imdbId", "year"],
          [[PyVal.intV 1, PyVal.strV "Toy Story (1995)", PyVal.strV "Adventure",
            PyVal.naV, PyVal.intV 1995]]⟩,
         empty_df) ∧
    extract_csv_data (some movies_dup_df) (some ratings_df) (some links_df) =
      Except.error "MergeError" := by
  refine ⟨rfl, rfl, rfl⟩

theorem ignore_append [DecidableEq κ] (key : α → κ) :
    ∀ (rows tbl : List α), ∃ ext, insert_ignore key tbl rows = tbl ++ ext := by
  intro rows
  induction rows with
  | nil => exact fun tbl => ⟨[], by simp [insert_ignore]⟩
  | cons r rs ih =>
    intro tbl
    unfold insert_ignore at ih ⊢
    rw [List.foldl_cons]
    by_cases h : tbl.any (fun x => key x = key r) = true
    · rw [if_pos h]
      exact ih tbl
    · rw [if_neg h]
      obtain ⟨ext, hext⟩ := ih (tbl ++ [r])
      exact ⟨[r] ++ ext, by rw [hext, List.append_assoc]⟩

theorem ignore_present_mem [DecidableEq κ] (key : α → κ) :
    ∀ (rows tbl : List α), ∀ r ∈ rows,
      (insert_ignore key tbl rows).any (fun x => key x = key r) = true := by
  intro rows
  induction rows with
  | nil =>
    intro tbl r hr
    simp at hr
  | cons a rs ih =>
    intro tbl r hr
    unfold insert_ignore at ih ⊢
    rw [List.foldl_cons]
    rcases List.mem_cons.mp hr with rfl | hr2
    · by_cases h : tbl.any (fun x => key x = key r) = true
      · rw [if_pos h]
        obtain ⟨ext, hext⟩ := ignore_append key rs tbl
        unfold insert_ignore at hext
        rw [hext, List.any_append, h]
        rfl
      · rw [if_neg h]
        obtain ⟨ext, hext⟩ := ignore_append key rs (tbl ++ [r])
        unfold insert_ignore at hext
        rw [hext, List.any_append, List.any_append]
        simp
    · by_cases h : tbl.any (fun x => key x = key a) = true
      · rw [if_pos h]
        exact ih tbl r hr2
      · rw [if_neg h]
        exact ih (tbl ++ [a]) r hr2

theorem ignore_id [DecidableEq κ] (key : α → κ) :
    ∀ (rows tbl : List α),
      (∀ r ∈ rows, tbl.any (fun x => key x = key r) = true) →
      insert_ignore key tbl rows = tbl := by
  intro rows
  induction rows with
  | nil => exact fun tbl _ => rfl
  | cons a rs ih =>
    intro tbl h
    unfold insert_ignore at ih ⊢
    rw [List.foldl_cons, if_pos (h a (List.mem_cons_self a rs))]
    exact ih tbl (fun r hr => h r (List.mem_cons_of_mem a hr))

theorem ignore_idem [DecidableEq κ] (key : α → κ) (tbl rows : List α) :
    insert_ignore key (insert_ignore key tbl rows) rows = insert_ignore key tbl rows :=
  ignore_id key rows _ (fun r hr => ignore_present_mem key rows tbl r hr)

theorem genres_fold_append :
    ∀ (names : List String) (st : List (Nat × String) × Nat),
      ∃ ext, (insert_genres_fold st names).1 = st.1 ++ ext := by
  intro names
  induction names with
  | nil => exact fun st => ⟨[], by simp [insert_genres_fold]⟩
  | cons n ns ih =>
    intro st
    unfold insert_genres_fold at ih ⊢
    rw [List.foldl_cons]
    by_cases h : st.1.any (fun g => g.2 = n) = true
    · rw [if_pos h]
      exact ih st
    · rw [if_neg h]
      obtain ⟨ext, hext⟩ := ih (st.1 ++ [(st.2, n)], st.2 + 1)
      exact ⟨[(st.2, n)] ++ ext, by rw [hext]; simp [List.append_assoc]⟩

theorem genres_fold_present :
    ∀ (names : List String) (st : List (Nat × String) × Nat), ∀ n ∈ names,
      (insert_genres_fold st names).1.any (fun g => g.2 = n) = true := by
  intro names
  induction names with
  | nil =>
    intro st n hn
    simp at hn
  | cons a ns ih =>
    intro st n hn
    unfold insert_genres_fold at ih ⊢
    rw [List.foldl_cons]
    rcases List.mem_cons.mp hn with rfl | hn2
    · by_cases h : st.1.any (fun g => g.2 = n) = true
      · rw [if_pos h]
        obtain ⟨ext, hext⟩ := genres_fold_append ns st
        unfold insert_genres_fold at hext
        rw [hext, List.any_append, h]
        rfl
      · rw [if_neg h]
        obtain ⟨ext, hext⟩ := genres_fold_append ns (st.1 ++ [(st.2, n)], st.2 + 1)
        unfold insert_genres_fold at hext
        rw [hext, List.any_append, List.any_append]
        simp
    · by_cases h : st.1.any (fun g => g.2 = a) = true
      · rw [if_pos h]
        exact ih st n hn2
      · rw [if_neg h]
        exact ih (st.1 ++ [(st.2, a)], st.2 + 1) n hn2

theorem genres_fold_id :
    ∀ (names : List String) (st : List (Nat × String) × Nat),
      (∀ n ∈ names, st.1.any (fun g => g.2 = n) = true) →
      insert_genres_fold st names = st := by
  intro names
  induction names with
  | nil => exact fun st _ => rfl
  | cons a ns ih =>
    intro st h
    unfold insert_genres_fold at ih ⊢
    rw [List.foldl_cons, if_pos (h a (List.mem_cons_self a ns))]
    exact ih st (fun n hn => h n (List.mem_cons_of_mem a hn))

theorem genres_fold_idem (st : List (Nat × String) × Nat) (names : List String) :
    insert_genres_fold (insert_genres_fold st names) names = insert_genres_fold st names :=
  genres_fold_id names _ (fun n hn => genres_fold_present names st n hn)

theorem key_chainApply [DecidableEq κ] (key : α → κ) :
    ∀ (rows : List α) (x : α), key (chainApply key rows x) = key x := by
  intro rows
  induction rows with
  | nil => exact fun x => rfl
  | cons r rs ih =>
    intro x
    unfold chainApply at ih ⊢
    rw [List.foldl_cons]
    by_cases h : key x = key r
    · rw [if_pos h, ih r, h]
    · rw [if_neg h, ih x]

theorem any_map_rep [DecidableEq κ] (key : α → κ) (tbl : List α) (r : α) (k : κ) :
    ((tbl.map (fun x => if key x = key r then r else x)).any (fun x => key x = k)) =
      (tbl.any (fun x => key x = k)) := by
  induction tbl with
  | nil => rfl
  | cons a t ih =>
    simp only [List.map_cons, List.any_cons, ih]
    by_cases h : key a = key r
    · rw [if_pos h]
      simp [h]
    · rw [if_neg h]

theorem replace_present_preserved [DecidableEq κ] (key : α → κ) :
    ∀ (rows tbl : List α) (k : κ),
      tbl.any (fun x => key x = k) = true →
      (insert_replace key tbl rows).any (fun x => key x = k) = true := by
  intro rows
  induction rows with
  | nil => exact fun tbl k h => h
  | cons r rs ih =>
    intro tbl k h
    unfold insert_replace at ih ⊢
    rw [List.foldl_cons]
    by_cases hp : tbl.any (fun x => key x = key r) = true
    · rw [if_pos hp]
      exact ih _ k (by rw [any_map_rep]; exact h)
    · rw [if_neg hp]
      exact ih _ k (by rw [List.any_append, h]; rfl)

theorem replace_present_mem [DecidableEq κ] (key : α → κ) :
    ∀ (rows tbl : List α), ∀ r ∈ rows,
      (insert_replace key tbl rows).any (fun x => key x = key r) = true := by
  intro rows
  induction rows with
  | nil =>
    intro tbl r hr
    simp at hr
  | cons a rs ih =>
    intro tbl r hr
    rcases List.mem_cons.mp hr with rfl | hr2
    · show (insert_replace key tbl (r :: rs)).any (fun x => key x = key r) = true
      unfold insert_replace
      rw [List.foldl_cons]
      by_cases hp : tbl.any (fun x => key x = key r) = true
      · rw [if_pos hp]
        exact replace_present_preserved key rs _ (key r) (by rw [any_map_rep]; exact hp)
      · rw [if_neg hp]
        exact replace_present_preserved key rs _ (key r)
          (by rw [List.any_append]; simp)
    · show (insert_replace key tbl (a :: rs)).any (fun x => key x = key r) = true
      unfold insert_replace
      rw [List.foldl_cons]
      by_cases hp : tbl.any (fun x => key x = key a) = true
      · rw [if_pos hp]
        exact ih _ r hr2
      · rw [if_neg hp]
        exact ih _ r hr2

theorem replace_all_present_eq_map [DecidableEq κ] (key : α → κ) :
    ∀ (rows tbl : List α),
      (∀ r ∈ rows, tbl.any (fun x => key x = key r) = true) →
      insert_replace key tbl rows = tbl.map (chainApply key rows) := by
  intro rows
  induction rows with
  | nil =>
    intro tbl _
    show tbl = tbl.map (fun x => x)
    rw [List.map_id']
  | cons r rs ih =>
    intro tbl h
    show insert_replace key tbl (r :: rs) = _
    unfold insert_replace
    rw [List.foldl_cons, if_pos (h r (List.mem_cons_self r rs))]
    have h2 : ∀ r2 ∈ rs, ((tbl.map (fun x => if key x = key r then r else x)).any
        (fun x => key x = key r2)) = true := by
      intro r2 hr2
      rw [any_map_rep]
      exact h r2 (List.mem_cons_of_mem r hr2)
    have := ih (tbl.map (fun x => if key x = key r then r else x)) h2
    unfold insert_replace at this
    rw [this, List.map_map]
    apply List.map_congr_left
    intro x _
    rfl

theorem chainApply_mem_fix [DecidableEq κ] (key : α → κ) (tbl : List α) :
    ∀ (rows : List α), ∀ x ∈ insert_replace key tbl rows, chainApply key rows x = x := by
  intro rows
  induction rows using List.reverseRecOn with
  | nil =>
    intro x _
    rfl
  | append_singleton rs r ih =>
    intro x hx
    unfold insert_replace at hx
    rw [List.foldl_append, List.foldl_cons, List.foldl_nil] at hx
    unfold chainApply
    rw [List.foldl_append, List.foldl_cons, List.foldl_nil]
    split at hx
    · rename_i hp
      obtain ⟨x0, hx0, hmap⟩ := List.mem_map.mp hx
      have hfix := ih x0 hx0
      unfold chainApply at hfix
      by_cases hk : key x0 = key r
      · rw [if_pos hk] at hmap
        subst hmap
        have hkey := key_chainApply key rs r
        unfold chainApply at hkey
        rw [hkey, if_pos rfl]
      · rw [if_neg hk] at hmap
        subst hmap
        rw [hfix, if_neg hk]
    · rename_i hp
      rcases List.mem_append.mp hx with hx2 | hx2
      · have hfix := ih x hx2
        unfold chainApply at hfix
        rw [hfix]
        have hk : ¬ key x = key r := by
          intro hk
          apply hp
          apply List.any_eq_true.mpr
          exact ⟨x, hx2, by simpa using hk⟩
        rw [if_neg hk]
      · simp only [List.mem_singleton] at hx2
        subst hx2
        have hkey := key_chainApply key rs x
        unfold chainApply at hkey
        rw [hkey]
        simp

theorem replace_idem [DecidableEq κ] (key : α → κ) (tbl rows : List α) :
    insert_replace key (insert_replace key tbl rows) rows = insert_replace key tbl rows := by
  rw [replace_all_present_eq_map key rows _ (fun r hr => replace_present_mem key rows tbl r hr)]
  have : ∀ x ∈ insert_replace key tbl rows, chainApply key rows x = x :=
    chainApply_mem_fix key tbl rows
  calc (insert_replace key tbl rows).map (chainApply key rows)
      = (insert_replace key tbl rows).map (fun x => x) := List.map_congr_left this
    _ = insert_replace key tbl rows := List.map_id' _

/-- C8: loading the same normalized record set twice against the same
store gives the same store (hence the same row counts) as loading it once:
the OR IGNORE loaders skip every already-present key, the genre map
resolved on the second run is identical because the genres table is
unchanged, and the OR REPLACE detail loader replaces each row by itself. -/
theorem claim_C8 (s : Store) (rs : RecordSet) : load_all (load_all s rs) rs = load_all s rs := by
  unfold load_all insert_movies_s insert_genres_s insert_movie_genres_s insert_ratings_s
    insert_movie_details_s
  simp only [Store.mk.injEq]
  refine ⟨?_, ?_, ?_, ?_, ?_, ?_⟩ <;>
    first
      | rfl
      | trivial
      | exact ignore_idem _ _ _
      | (rw [genres_fold_idem]; exact ignore_idem _ _ _)
      | rw [genres_fold_idem]
      | exact replace_idem _ _ _

end ETL
